import Mathlib

/-!
# UnixShell: a job-control shell (`shell.c`)

A shallow embedding of `shell.c`: the append-redirection scanner
`parse_append_redirection`, the `SIGCHLD` handler `sigchld_handler` and the
body of the `while (1)` loop of `main`, followed by theorems about them.

Conventions of the embedding.

* A `char *args[]` buffer is a list of cells, `none` being `NULL`; a read past
  the end of the buffer has no result (`none` of the enclosing `Option`).
* The shell process is a record of the job list, the `SIGCHLD` mask bit, the
  foreground process group of the terminal and the list of actions performed
  so far.  Everything the operating system answers (`fork`, `waitpid`,
  `killpg`, `execvp`, `open`, `dup2`, `chdir`) is an input of the model.
* Numbers are integers; where the width of a C variable matters (the results
  of `atoi` kept in `int pos`, `int n` and `int signals[100]`) the value is
  reduced to the 32-bit `int`, and a store past the end of `signals` has no
  defined result.
* The types, macros and functions of `job_control.h` and `job_control.c` that
  `shell.c` uses are modelled from the specification and marked so.
-/

namespace UnixShell

/-! ## Argument buffers -/

/-- The buffer `char *args[]`: one cell per pointer, `none` is `NULL`. -/
abbrev Args := List (Option String)

/-- The NULL-terminated vector held in a buffer: the tokens before the first
`NULL` cell. -/
def argv : Args → List String
  | some t :: rest => t :: argv rest
  | _ => []

/-- A buffer that holds the vector `v`: the tokens of `v`, a `NULL`, and
whatever cells follow. -/
def Holds (buf : Args) (v : List String) : Prop :=
  ∃ rest : Args, buf = v.map some ++ none :: rest

/-- What `parse_append_redirection` leaves behind: the buffer, `*file_out`,
and the lines written to `stderr`. -/
structure Parsed where
  args : Args
  file_out : Option String
  stderr : List String
deriving DecidableEq, Repr

/-- The inner loop of `parse_append_redirection` (lines 91-96):
`while ( *aux) { *(aux-2) = *aux; aux++; }  *(aux-2) = NULL;`
with `aux` an index into the buffer. -/
def shift_left : Nat → Args → Nat → Option Args
  | 0, _, _ => none
  | fuel + 1, buf, aux =>
    match buf[aux]? with
    | none => none
    | some none => some (buf.set (aux - 2) none)
    | some (some t) => shift_left fuel (buf.set (aux - 2) (some t)) (aux + 1)

/-- The outer loop of `parse_append_redirection` (lines 85-106); `args` is
the index the moving pointer `args` has reached, `args_start` is index 0. -/
def parse_loop : Nat → Args → Nat → Option String → List String → Option Parsed
  | 0, _, _, _, _ => none
  | fuel + 1, buf, args, file_out, err =>
    match buf[args]? with
    | none => none
    | some none => some ⟨buf, file_out, err⟩
    | some (some t) =>
      if t = ">>" then
        match buf[args + 1]? with
        | none => none
        | some none =>
          parse_loop fuel (buf.set 0 none) (args + 1) file_out
            (err ++ ["syntax error in redirection\n"])
        | some (some f) =>
          match shift_left buf.length buf (args + 2) with
          | none => none
          | some buf2 => parse_loop fuel buf2 args (some f) err
      else parse_loop fuel buf (args + 1) file_out err

/-- The function `parse_append_redirection(args, &file_out)` (lines 82-107).
The result is `none` when the scan reads past the end of the buffer, which a
NULL-terminated buffer excludes. -/
def parse_append_redirection (buf : Args) : Option Parsed :=
  parse_loop (buf.length + 1) buf 0 none []

/-! ## Jobs, wait statuses and the job list -/

/-- Modelled from the spec: the `enum job_state` of `job_control.h`, "one of
FOREGROUND, BACKGROUND, STOPPED". -/
inductive job_state
  | FOREGROUND
  | BACKGROUND
  | STOPPED
deriving DecidableEq, Repr

/-- Modelled from the spec: the type `job` of `job_control.h`, "one tracked
process group" with its `pgid`, `command` and `state`. -/
structure job where
  pgid : Int
  command : String
  state : job_state
deriving DecidableEq, Repr

/-- Modelled from the spec: the `enum status` of `job_control.h`, the
"classification EXITED, SIGNALED, SUSPENDED, CONTINUED" of a wait status. -/
inductive status
  | SUSPENDED
  | SIGNALED
  | EXITED
  | CONTINUED
deriving DecidableEq, Repr

/-- A raw wait status, as the macros `WIFSTOPPED`, `WIFCONTINUED`, `WIFEXITED`
and `WIFSIGNALED` tell it apart, with the value of `WSTOPSIG`, `WEXITSTATUS`
or `WTERMSIG`; for a continued group the field is the auxiliary code that
`analyze_status` writes. -/
inductive wstatus
  | stopped (sig : Int)
  | continued (aux : Int)
  | exited (code : Int)
  | signaled (sig : Int)
deriving DecidableEq, Repr

/-- Modelled from the spec: `analyze_status` of `job_control.c`, which "given
a raw wait status and an output slot, returns one of EXITED, SIGNALED,
SUSPENDED, CONTINUED and writes an auxiliary code (exit value or signal
number)". The pair is the returned classification and the written code. -/
def analyze_status : wstatus → status × Int
  | .stopped sig => (.SUSPENDED, sig)
  | .continued aux => (.CONTINUED, aux)
  | .exited code => (.EXITED, code)
  | .signaled sig => (.SIGNALED, sig)

/-- Modelled from the spec: `new_job` of `job_control.c`, "construct a Job
value from (pgid, command text, state)". -/
def new_job (pgid : Int) (command : String) (state : job_state) : job :=
  ⟨pgid, command, state⟩

/-- Modelled from the spec: `add_job` of `job_control.c`, "insert a Job" into
the "ordered collection of Jobs, position 1 = oldest/first surviving entry":
the new job goes behind the ones already there. -/
def add_job (list : List job) (item : job) : List job :=
  list ++ [item]

/-- Modelled from the spec: `delete_job` of `job_control.c`, "remove a Job by
reference"; the reference is the index of the node in the list. -/
def delete_job (list : List job) (item : Nat) : List job :=
  list.eraseIdx item

/-- Modelled from the spec: `get_item_bypos` of `job_control.c`, "look up a
Job by 1-based position"; the result is the reference to the node (its index)
with the node's contents, or `none` for `NULL`. -/
def get_item_bypos (list : List job) (n : Int) : Option (Nat × job) :=
  if n < 1 then none
  else (list[(n - 1).toNat]?).map (fun j => ((n - 1).toNat, j))

/-- Modelled from the spec: `empty_list` of `job_control.c`, "test
emptiness". -/
def empty_list (list : List job) : Bool :=
  list.isEmpty

/-- The process-group ids of the jobs of a list, in list order. -/
def pgids (list : List job) : List Int :=
  list.map job.pgid

/-! ## Actions of the shell process -/

/-- An argument of a `printf` call. -/
inductive PrintArg
  | int (n : Int)
  | str (s : String)
  | null
  | status_string (s : status)
deriving DecidableEq, Repr

/-- An access of the main loop to `my_job_list`. -/
inductive Access
  | get_item_bypos (n : Int)
  | add_job (item : job)
  | delete_job (item : job)
  | set_state (item : job) (state : job_state)
  | empty_list
  | print_job_list
deriving DecidableEq, Repr

/-- One action of the shell process. `job_list a blocked` is an access of
the main loop to the job list, with the state of the `SIGCHLD` mask at that
moment; `printf` carries the format string and the arguments, where
`PrintArg.status_string s` stands for `status_strings[s]`. -/
inductive Event
  | printf (fmt : String) (args : List PrintArg)
  | fprintf_stderr (text : String)
  | perror (msg : String)
  | block_SIGCHLD
  | unblock_SIGCHLD
  | job_list (a : Access) (blocked : Bool)
  | fork (ret : Int)
  | new_process_group (pid : Int)
  | set_terminal (pgid : Int)
  | killpg_SIGCONT (pgid : Int) (ret : Int)
  | waitpid (pgid : Int) (nohang : Bool) (ret : Int)
  | restore_terminal_signals
  | block_signal (sig : Int)
  | chdir (path : Option String) (ret : Int)
  | opendir_proc (ok : Bool)
  | open_file (path : String) (ret : Int)
  | dup2 (oldfd : Int) (newfd : Int) (ret : Int)
  | close (fd : Int)
  | execvp (file : Option String) (argv : List String)
  | exit (code : Int)
deriving DecidableEq, Repr

/-- The shell process: its pid (what `getpid()` returns), the global
`my_job_list`, whether `SIGCHLD` is blocked, the foreground process group of
the controlling terminal, and the actions performed so far. -/
structure Shell where
  pid : Int
  my_job_list : List job
  sigchld_blocked : Bool
  terminal : Int
  trace : List Event
deriving DecidableEq, Repr

/-- The shell after the initialisation of `main` (lines 128-131): an empty
job list, `SIGCHLD` deliverable, the shell in the foreground. -/
def Shell.init (pid : Int) : Shell :=
  ⟨pid, [], false, pid, []⟩

/-- Where the process goes after a command: back to the head of the
`while (1)` loop, out through `exit`, or into another program image;
`undefined` when the command has stored past the end of an array, after which
the behaviour of the C program is not defined. -/
inductive Control
  | next_command
  | exited (code : Int)
  | replaced (file : Option String) (argv : List String)
  | undefined
deriving DecidableEq, Repr

/-- The flags of the three `open` calls of the child branch. -/
inductive OpenFlags
  | rdonly
  | creat_trunc
  | creat_append
deriving DecidableEq, Repr

/-- One line of `/proc/<pid>/stat` as `zjobs` scans it: pid, state, ppid. -/
structure ProcStat where
  pid : Int
  state : Char
  ppid : Int
deriving DecidableEq, Repr

/-- What the operating system and the C library answer while one command is
processed: the return value of the `i`-th call of `fork`, the pid a child
sees, the return values of `killpg`, of the blocking `waitpid` and the status
it stores, whether `execvp` succeeds, the return values of `chdir`, `open`
and `dup2`, the value of `HOME`, and the readable entries of `/proc` (`none`
when `opendir` fails). -/
structure Env where
  fork : Nat → Int
  getpid_child : Int
  killpg : Int
  waitpid : Int
  wait_status : wstatus
  execvp_ok : Bool
  chdir : Int
  open_file : String → OpenFlags → Int
  dup2 : Int → Int → Int
  getenv_HOME : Option String
  proc : Option (List ProcStat)

/-- One command line as the main loop holds it after `get_command`,
`parse_redirections` and `parse_append_redirection`: the vector `args`, the
flag `background`, and the three redirection targets. -/
structure Command where
  args : List String
  background : Bool
  file_in : Option String
  file_out : Option String
  file_out_append : Option String
deriving DecidableEq, Repr

/-- Append one action to the trace. -/
def Shell.emit (s : Shell) (e : Event) : Shell :=
  { s with trace := s.trace ++ [e] }

/-- A call of `printf`. -/
def Shell.printf (s : Shell) (fmt : String) (args : List PrintArg) : Shell :=
  s.emit (.printf fmt args)

/-- A call of `perror`. -/
def Shell.perror (s : Shell) (msg : String) : Shell :=
  s.emit (.perror msg)

/-- Modelled from the spec: the macro `block_SIGCHLD()` of `job_control.h`,
"block a specific signal for the calling process", for the child-state-change
notification. -/
def block_SIGCHLD (s : Shell) : Shell :=
  { s with sigchld_blocked := true, trace := s.trace ++ [.block_SIGCHLD] }

/-- Modelled from the spec: the macro `unblock_SIGCHLD()` of `job_control.h`,
"unblock a specific signal for the calling process", for the
child-state-change notification. -/
def unblock_SIGCHLD (s : Shell) : Shell :=
  { s with sigchld_blocked := false, trace := s.trace ++ [.unblock_SIGCHLD] }

/-- Modelled from the spec: `set_terminal` of `job_control.h`, "set the
controlling terminal's foreground group". -/
def set_terminal (s : Shell) (pgid : Int) : Shell :=
  { s with terminal := pgid, trace := s.trace ++ [.set_terminal pgid] }

/-- Modelled from the spec: `new_process_group` of `job_control.h`, "make a
pgid leader". -/
def new_process_group (s : Shell) (pid : Int) : Shell :=
  s.emit (.new_process_group pid)

/-- Modelled from the spec: `restore_terminal_signals` of `job_control.h`,
"restore default dispositions in a child". -/
def restore_terminal_signals (s : Shell) : Shell :=
  s.emit .restore_terminal_signals

/-- An access of the main loop to `my_job_list`, recorded with the state of
the `SIGCHLD` mask. -/
def Shell.access (s : Shell) (a : Access) : Shell :=
  s.emit (.job_list a s.sigchld_blocked)

/-- The call `add_job(my_job_list, item)` in the main loop. -/
def Shell.add_job (s : Shell) (item : job) : Shell :=
  { s.access (.add_job item) with my_job_list := UnixShell.add_job s.my_job_list item }

/-- The call `delete_job(my_job_list, item)` in the main loop, `ref` being
the node that the pointer `item` refers to. -/
def Shell.delete_job (s : Shell) (ref : Nat) (item : job) : Shell :=
  { s.access (.delete_job item) with my_job_list := UnixShell.delete_job s.my_job_list ref }

/-- The assignment `item->state = state` in the main loop. -/
def Shell.set_state (s : Shell) (ref : Nat) (item : job) (state : job_state) : Shell :=
  { s.access (.set_state item state) with
    my_job_list := s.my_job_list.set ref { item with state := state } }

/-- The C library function `isspace` in the "C" locale. -/
def isspace (c : Char) : Bool :=
  c = ' ' || (9 ≤ c.toNat && c.toNat ≤ 13)

/-- The digits loop of `strtol` in base 10: the value of the longest prefix
of decimal digits, on top of `acc`. -/
def atoi_digits : List Char → Nat → Nat
  | [], acc => acc
  | c :: cs, acc =>
    if c.isDigit then atoi_digits cs (acc * 10 + (c.toNat - 48)) else acc

/-- The C library function `strtol(s, NULL, 10)` with a 64-bit `long`:
leading white space, an optional sign, then decimal digits (`0` when there
is no digit); a value outside the range of `long` gives `LONG_MIN` or
`LONG_MAX`. -/
def strtol (s : String) : Int :=
  let value : Int :=
    match s.toList.dropWhile isspace with
    | '-' :: ds => - (atoi_digits ds 0 : Int)
    | '+' :: ds => (atoi_digits ds 0 : Int)
    | ds => (atoi_digits ds 0 : Int)
  if value < -9223372036854775808 then -9223372036854775808
  else if 9223372036854775807 < value then 9223372036854775807
  else value

/-- The conversion of a `long` to the 32-bit `int`: the value modulo `2^32`
in the range from `-2^31` to `2^31 - 1`. -/
def int_of_long (v : Int) : Int :=
  (v + 2147483648) % 4294967296 - 2147483648

/-- The C library function `atoi`, which is `(int) strtol(s, NULL, 10)`: the
result is a 32-bit `int`, as the variables `pos`, `n` and `signals[]` that
receive it are; `atoi("4294967297")` is 1. -/
def atoi (s : String) : Int :=
  int_of_long (strtol s)

/-! ## The `SIGCHLD` handler -/

/-- The body of the `while` loop of `sigchld_handler` (lines 36-57) for the
job `the_job`, `pid_wait` and `st` being what the non-blocking `waitpid`
returns and stores: the job as it is left in the list (`none` when it is
deleted) and the actions performed. -/
def handler_body (the_job : job) (pid_wait : Int) (st : wstatus) :
    Option job × List Event :=
  let polled := Event.waitpid the_job.pgid true pid_wait
  if pid_wait = the_job.pgid then
    let status_res := (analyze_status st).1
    let info := (analyze_status st).2
    let line := Event.printf "Background pid: %d, command: %s, %s, info: %d\n"
      [.int the_job.pgid, .str the_job.command, .status_string status_res, .int info]
    if status_res = .SUSPENDED then
      (some { the_job with state := .STOPPED }, [polled, line])
    else if status_res = .CONTINUED then
      (some { the_job with state := .BACKGROUND }, [polled, line])
    else
      (none, [polled, line])
  else if pid_wait = -1 then
    (some the_job, [polled, .perror "Wait error from sigchld_handler"])
  else
    (some the_job, [polled])

/-- The loop `while(has_next(iter))` of `sigchld_handler` over the nodes the
iterator still has to visit; `k` counts the calls of `waitpid` made so far
and `waitpid k` is the answer to the next one. -/
def handler_loop (waitpid : Nat → Int × wstatus) : List job → Nat → List job × List Event
  | [], _ => ([], [])
  | the_job :: rest, k =>
    let r := handler_body the_job (waitpid k).1 (waitpid k).2
    let tail := handler_loop waitpid rest (k + 1)
    (r.1.toList ++ tail.1, r.2 ++ tail.2)

/-- The function `sigchld_handler` (lines 29-59) run on the shell. -/
def sigchld_handler (s : Shell) (waitpid : Nat → Int × wstatus) : Shell :=
  { s with
    my_job_list := (handler_loop waitpid s.my_job_list 0).1,
    trace := s.trace ++ (handler_loop waitpid s.my_job_list 0).2 }

/-! ## The built-in commands of `main` -/

/-- The built-in `exit` (lines 151-153). -/
def builtin_exit (s : Shell) : Shell × Control :=
  ((s.printf "Bye\n" []).emit (.exit 0), .exited 0)

/-- The built-in `cd` (lines 161-168). -/
def builtin_cd (s : Shell) (c : Command) (env : Env) : Shell × Control :=
  let path : Option String :=
    match c.args[1]? with
    | none => env.getenv_HOME
    | some a => some a
  let cd_status := env.chdir
  let s := s.emit (.chdir path cd_status)
  if cd_status = -1 then
    (s.perror "cd error", .next_command)
  else
    (s.printf "Current working directory changed to %s\n"
      [match path with
       | none => .null
       | some a => .str a], .next_command)

/-- The built-in `jobs` (lines 175-180). -/
def builtin_jobs (s : Shell) : Shell × Control :=
  let s := s.access .empty_list
  if empty_list s.my_job_list then
    (s.printf "There are no jobs in background or stopped\n" [], .next_command)
  else
    (s.access .print_job_list, .next_command)

/-- The position argument of `fg` and `bg`, the `int`
`(args[1] == NULL) ? 1 : atoi(args[1])`. -/
def position_arg (args : List String) : Int :=
  match args[1]? with
  | none => 1
  | some a => atoi a

/-- The built-in `fg` from the snapshot of the job to the `unblock_SIGCHLD()`
that precedes the wait (lines 201-222); `ref` is the node `fg_job` points to. -/
def fg_resume (s : Shell) (pos : Int) (ref : Nat) (fg_job : job) (env : Env) : Shell :=
  let fg_job_pgid := fg_job.pgid
  let fg_job_command := fg_job.command
  let s :=
    if fg_job.state = .STOPPED then
      s.printf "Resuming job in foreground: [%d] %s\n" [.int pos, .str fg_job_command]
    else
      s.printf "Bringing job to foreground: [%d] %s\n" [.int pos, .str fg_job_command]
  let s := set_terminal s fg_job_pgid
  let s := s.set_state ref fg_job .FOREGROUND
  let fg_status := env.killpg
  let s := s.emit (.killpg_SIGCONT fg_job_pgid fg_status)
  let s :=
    if fg_status = -1 then
      set_terminal (unblock_SIGCHLD (s.perror "fg error")) s.pid
    else s
  let s := s.delete_job ref { fg_job with state := .FOREGROUND }
  unblock_SIGCHLD s

/-- The built-in `fg` from the blocking `waitpid` on (lines 224-248). -/
def fg_wait (s : Shell) (fg_job_pgid : Int) (fg_job_command : String) (env : Env) : Shell :=
  let pid_wait := env.waitpid
  let s := s.emit (.waitpid fg_job_pgid false pid_wait)
  let s := set_terminal s s.pid
  let s := block_SIGCHLD s
  if pid_wait = -1 then
    unblock_SIGCHLD (s.perror "waitpid error")
  else
    let s :=
      match env.wait_status with
      | .stopped sig =>
        (s.add_job (new_job fg_job_pgid fg_job_command .STOPPED)).printf
          "Process stopped by signal: %d\n" [.int sig]
      | .continued _ => s.printf "Process continued\n" []
      | .exited code => s.printf "Process completed with exit code: %d\n" [.int code]
      | .signaled sig => s.printf "Process terminated by signal: %d\n" [.int sig]
    let status_res := (analyze_status env.wait_status).1
    let info := (analyze_status env.wait_status).2
    let s := s.printf "Foreground pid: %d, command: %s, %s, info: %d\n"
      [.int fg_job_pgid, .str fg_job_command, .status_string status_res, .int info]
    unblock_SIGCHLD s

/-- The built-in `fg` (lines 191-249). -/
def builtin_fg (s : Shell) (c : Command) (env : Env) : Shell × Control :=
  let pos := position_arg c.args
  let s := block_SIGCHLD s
  let s := s.access (.get_item_bypos pos)
  match get_item_bypos s.my_job_list pos with
  | none =>
    (unblock_SIGCHLD (s.printf "There is no job in position %d\n" [.int pos]),
      .next_command)
  | some (ref, fg_job) =>
    (fg_wait (fg_resume s pos ref fg_job env) fg_job.pgid fg_job.command env,
      .next_command)

/-- The built-in `bg` (lines 259-274). -/
def builtin_bg (s : Shell) (c : Command) (env : Env) : Shell × Control :=
  let s := block_SIGCHLD s
  let pos := position_arg c.args
  let s := s.access (.get_item_bypos pos)
  let s :=
    match get_item_bypos s.my_job_list pos with
    | none => s.printf "There is no job in position %d\n" [.int pos]
    | some (ref, bg_job) =>
      let s := s.set_state ref bg_job .BACKGROUND
      let bg_status := env.killpg
      let s := s.emit (.killpg_SIGCONT bg_job.pgid bg_status)
      if bg_status = -1 then s.perror "bg error" else s
  (unblock_SIGCHLD s, .next_command)

/-- The built-in `currjob` (lines 281-291). -/
def builtin_currjob (s : Shell) : Shell × Control :=
  let s := block_SIGCHLD s
  let s := s.access (.get_item_bypos 1)
  let s :=
    match get_item_bypos s.my_job_list 1 with
    | none => s.printf "No current job\n" []
    | some (_, current_job) =>
      s.printf "Current job: PID=%d command=%s\n"
        [.int current_job.pgid, .str current_job.command]
  (unblock_SIGCHLD s, .next_command)

/-- The built-in `deljob` (lines 300-314). -/
def builtin_deljob (s : Shell) : Shell × Control :=
  let s := block_SIGCHLD s
  let s := s.access (.get_item_bypos 1)
  let s :=
    match get_item_bypos s.my_job_list 1 with
    | none => s.printf "No current job\n" []
    | some (ref, current_job) =>
      if current_job.state = .STOPPED then
        s.printf "Cannot delete suspended background jobs\n" []
      else if current_job.state = .BACKGROUND then
        (s.printf "Deleting current job from jobs list: PID=%d command=%s\n"
          [.int current_job.pgid, .str current_job.command]).delete_job ref current_job
      else s
  (unblock_SIGCHLD s, .next_command)

/-- The scan of `zjobs` over the readable entries of `/proc` (lines 328-346). -/
def zjobs_scan (s : Shell) : List ProcStat → Shell
  | [] => s
  | e :: rest =>
    if e.ppid = s.pid ∧ e.state = 'Z' then
      zjobs_scan (s.printf "%ld\n" [.int e.pid]) rest
    else zjobs_scan s rest

/-- The built-in `zjobs` (lines 322-350). -/
def builtin_zjobs (s : Shell) (env : Env) : Shell × Control :=
  match env.proc with
  | some entries => (zjobs_scan (s.emit (.opendir_proc true)) entries, .next_command)
  | none =>
    ((s.emit (.opendir_proc false)).perror "Failed to open the /proc directory",
      .next_command)

/-- The copy loop of the `bgteam` child (lines 387-390),
`while (args[j] != NULL) { j++; new_args[j - 2] = args[j]; }`:
the first argument is the part of `args` from index `j` on, and `new_args`
holds the cells `0 .. j-2` written so far, so that the store into
`new_args[j - 2]` after the increment adds a cell at its end. -/
def bgteam_copy : List String → Args → Args
  | [], new_args => new_args
  | _ :: rest, new_args => bgteam_copy rest (new_args ++ [rest.head?])

/-- The child branch of `bgteam` (lines 383-394). -/
def bgteam_child (s : Shell) (args : List String) (env : Env) : Shell × Control :=
  let s := restore_terminal_signals { s with pid := env.getpid_child }
  let new_args := bgteam_copy (args.drop 1) []
  let file := (argv new_args).head?
  let s := s.emit (.execvp file (argv new_args))
  if env.execvp_ok then
    (s, .replaced file (argv new_args))
  else
    let s := s.printf "Error, command not found: %s\n"
      [match file with
       | none => .null
       | some a => .str a]
    (s.emit (.exit 1), .exited 1)

/-- The loop `while(i < n)` of `bgteam` (lines 373-400); the first argument
is the number `n - i` of iterations still to run, `cmd` is `args[2]`. -/
def bgteam_loop (args : List String) (cmd : String) (env : Env) :
    Nat → Nat → Shell → Shell × Control
  | 0, _, s => (s, .next_command)
  | k + 1, i, s =>
    let pid_fork := env.fork i
    let s := s.emit (.fork pid_fork)
    if pid_fork > 0 then
      let s := new_process_group s pid_fork
      let s := s.printf "Background job running... pid: %d, command %s\n"
        [.int pid_fork, .str cmd]
      let s := block_SIGCHLD s
      let s := s.add_job (new_job pid_fork cmd .BACKGROUND)
      let s := unblock_SIGCHLD s
      bgteam_loop args cmd env k (i + 1) s
    else if pid_fork = 0 then
      bgteam_child s args env
    else
      bgteam_loop args cmd env k (i + 1) (s.perror "Fork error")

/-- The built-in `bgteam` (lines 364-401). -/
def builtin_bgteam (s : Shell) (c : Command) (env : Env) : Shell × Control :=
  match c.args[1]?, c.args[2]? with
  | some count, some cmd =>
    if atoi count > 0 then
      let n := atoi count
      bgteam_loop c.args cmd env n.toNat 0 s
    else (s, .next_command)
  | _, _ => (s.printf "The bgteam command requires two arguments" [], .next_command)

/-- The parent branch of a launch (lines 561-585, and 503-527 for `mask`):
`name` is `args[0]`, respectively `new_args[0]`. -/
def launch_parent (s : Shell) (name : String) (background : Bool) (pid_fork : Int)
    (env : Env) : Shell :=
  let s := new_process_group s pid_fork
  if !background then
    let s := set_terminal s pid_fork
    let pid_wait := env.waitpid
    let s := s.emit (.waitpid pid_fork false pid_wait)
    let s := set_terminal s s.pid
    if pid_wait = pid_fork then
      let status_res := (analyze_status env.wait_status).1
      let info := (analyze_status env.wait_status).2
      let s := s.printf "Foreground pid: %d, command: %s, %s, info: %d\n"
        [.int pid_fork, .str name, .status_string status_res, .int info]
      match env.wait_status with
      | .stopped _ =>
        let s := s.printf "Stopped pid: %d, command: %s, %s, info: %d\n"
          [.int pid_fork, .str name, .status_string status_res, .int info]
        s.add_job (new_job pid_wait name .STOPPED)
      | _ => s
    else if pid_wait = -1 then
      s.perror "Wait error"
    else s
  else
    let s := s.printf "Background job running... pid: %d, command %s\n"
      [.int pid_fork, .str name]
    let s := block_SIGCHLD s
    let s := s.add_job (new_job pid_fork name .BACKGROUND)
    unblock_SIGCHLD s

/-- The parent branch of `fico` (lines 416-441). -/
def fico_parent (s : Shell) (background : Bool) (pid_fork : Int) (env : Env) : Shell :=
  let s := new_process_group s pid_fork
  if !background then
    let s := set_terminal s pid_fork
    let pid_wait := env.waitpid
    let s := s.emit (.waitpid pid_fork false pid_wait)
    let s := set_terminal s s.pid
    if pid_wait = pid_fork then
      let status_res := (analyze_status env.wait_status).1
      let info := (analyze_status env.wait_status).2
      let s := s.printf "Foreground pid: %d, command: fico, %s, info: %d\n"
        [.int pid_fork, .status_string status_res, .int info]
      match env.wait_status with
      | .stopped _ =>
        let s := s.printf "Stopped pid: %d, command:fico, %s, info: %d\n"
          [.int pid_fork, .status_string status_res, .int info]
        let s := block_SIGCHLD s
        let s := s.add_job (new_job pid_wait "fico" .STOPPED)
        unblock_SIGCHLD s
      | _ => s
    else if pid_wait = -1 then
      s.perror "Wait error"
    else s
  else
    let s := s.printf "Background job running... pid: %d, command fico\n" [.int pid_fork]
    let s := block_SIGCHLD s
    let s := s.add_job (new_job pid_fork "fico" .BACKGROUND)
    unblock_SIGCHLD s

/-- The child branch of `fico` (lines 443-449). -/
def fico_child (s : Shell) (c : Command) (env : Env) : Shell × Control :=
  let s := { s with pid := env.getpid_child }
  let s := if !c.background then set_terminal s s.pid else s
  let s := restore_terminal_signals s
  let args_fico := "./filecount.sh" :: (c.args[1]?).toList
  let s := s.emit (.execvp (some "./filecount.sh") args_fico)
  if env.execvp_ok then (s, .replaced (some "./filecount.sh") args_fico)
  else (s.emit (.exit 1), .exited 1)

/-- The built-in `fico` (lines 413-453). -/
def builtin_fico (s : Shell) (c : Command) (env : Env) : Shell × Control :=
  let pid_fork := env.fork 0
  let s := s.emit (.fork pid_fork)
  if pid_fork > 0 then
    (fico_parent s c.background pid_fork env, .next_command)
  else if pid_fork = 0 then
    fico_child s c env
  else
    (s.perror "Fork error", .next_command)

/-- The result of `execvp(file, argv)` followed by the two lines after it
(`printf("Error, command not found ...")`, `exit(EXIT_FAILURE)`). -/
def exec_or_fail (s : Shell) (file : Option String) (argv : List String) (env : Env) :
    Shell × Control :=
  let s := s.emit (.execvp file argv)
  if env.execvp_ok then (s, .replaced file argv)
  else
    let s := s.printf "Error, command not found: %s\n"
      [match file with
       | none => .null
       | some a => .str a]
    (s.emit (.exit 1), .exited 1)

/-- The signal-number loop of `mask` (lines 471-480) over the part of `args`
from index `i` on: the shell, the numbers stored in `signals`, the flag
`syntax_error`, and the part of `args` from the final `i` on. The list
`signals` holds the cells of `int signals[100]` written so far, so that the
store `signals[i - 1] = atoi(args[i])` adds a number at its end; the result
is `none` when that store falls past the end of the array, that is for the
101st signal token. -/
def mask_scan : List String → Shell → List Int → Bool →
    Option (Shell × List Int × Bool × List String)
  | [], s, signals, syntax_error => some (s, signals, syntax_error, [])
  | a :: rest, s, signals, syntax_error =>
    if a = "-c" then some (s, signals, syntax_error, a :: rest)
    else if 100 ≤ signals.length then none
    else if atoi a ≤ 0 then
      mask_scan rest (s.printf "mask: error de sintaxis\n" []) (signals ++ [atoi a]) true
    else
      mask_scan rest s (signals ++ [atoi a]) syntax_error

/-- The child branch of `mask` (lines 529-541); `name` is `new_args[0]`. -/
def mask_child (s : Shell) (signals : List Int) (name : String) (new_args : List String)
    (background : Bool) (env : Env) : Shell × Control :=
  let s := { s with pid := env.getpid_child }
  let s := signals.foldl (fun s sig => s.emit (.block_signal sig)) s
  let s := if !background then set_terminal s s.pid else s
  let s := restore_terminal_signals s
  exec_or_fail s (some name) new_args env

/-- The built-in `mask` (lines 465-546). After the signal loop `from_i` is
the part of `args` from index `i` on, so `args[i] == NULL || args[i + 1] ==
NULL` says that it has fewer than two tokens, and otherwise `new_args` is
what follows its first token. When the signal loop stores past the end of
`signals` the result is `undefined`. -/
def builtin_mask (s : Shell) (c : Command) (env : Env) : Shell × Control :=
  match mask_scan (c.args.drop 1) s [] false with
  | none => (s, .undefined)
  | some (s, signals, syntax_error, from_i) =>
    if syntax_error = false then
      match from_i with
      | _ :: name :: more =>
        let new_args := name :: more
        let pid_fork := env.fork 0
        let s := s.emit (.fork pid_fork)
        if pid_fork > 0 then
          (launch_parent s name c.background pid_fork env, .next_command)
        else if pid_fork = 0 then
          mask_child s signals name new_args c.background env
        else
          (s.perror "Fork error", .next_command)
      | _ => (s.printf "mask: error de sintaxis\n" [], .next_command)
    else (s, .next_command)

/-- The input redirection of the child branch (lines 593-606): the shell,
`false` when the branch is left through `continue`, and `newfd_in`.
`fileno(stdin)` is 0. -/
def redirect_in (s : Shell) (file_in : Option String) (env : Env) : Shell × Bool × Int :=
  match file_in with
  | none => (s, true, 0)
  | some f =>
    let newfd_in := env.open_file f .rdonly
    let oldfd_in : Int := 0
    let s := s.emit (.open_file f newfd_in)
    if newfd_in = -1 then
      (s.perror "Error when opening input file", false, newfd_in)
    else
      let s := s.emit (.dup2 newfd_in oldfd_in (env.dup2 newfd_in oldfd_in))
      if env.dup2 newfd_in oldfd_in = -1 then
        ((s.perror "Error redirectioning input").emit (.close newfd_in), false, newfd_in)
      else (s, true, newfd_in)

/-- The output redirections of the child branch (lines 608-621 with
`creat_trunc`, lines 623-636 with `creat_append`): the shell, `false` when
the branch is left through `continue`, and the descriptor `open` returned.
`fileno(stdout)` is 1, and it is `newfd_out` that the code compares
with -1. -/
def redirect_out (s : Shell) (file_out : Option String) (flags : OpenFlags) (env : Env) :
    Shell × Bool × Int :=
  match file_out with
  | none => (s, true, 0)
  | some f =>
    let newfd_out : Int := 1
    let oldfd_out := env.open_file f flags
    let s := s.emit (.open_file f oldfd_out)
    if newfd_out = -1 then
      (s.perror "Error when opening output file", false, oldfd_out)
    else
      let s := s.emit (.dup2 oldfd_out newfd_out (env.dup2 oldfd_out newfd_out))
      if env.dup2 oldfd_out newfd_out = -1 then
        ((s.perror "Error redirecioning output").emit (.close oldfd_out), false, oldfd_out)
      else (s, true, oldfd_out)

/-- The `close` calls that end the redirections (lines 638-640). -/
def close_redirections (s : Shell) (c : Command) (newfd_in oldfd_out oldfd_out_append : Int) :
    Shell :=
  let s := if c.file_in.isSome then s.emit (.close newfd_in) else s
  let s := if c.file_out.isSome then s.emit (.close oldfd_out) else s
  if c.file_out_append.isSome then s.emit (.close oldfd_out_append) else s

/-- The redirections of the child branch of the generic launch (lines
591-641); the boolean is `false` when the branch is left through
`continue`. -/
def child_redirections (s : Shell) (c : Command) (env : Env) : Shell × Bool :=
  if c.file_in.isSome ∨ c.file_out.isSome ∨ c.file_out_append.isSome then
    let r1 := redirect_in s c.file_in env
    if r1.2.1 = false then (r1.1, false)
    else
      let r2 := redirect_out r1.1 c.file_out .creat_trunc env
      if r2.2.1 = false then (r2.1, false)
      else
        let r3 := redirect_out r2.1 c.file_out_append .creat_append env
        if r3.2.1 = false then (r3.1, false)
        else (close_redirections r3.1 c r1.2.2 r2.2.2 r3.2.2, true)
  else (s, true)

/-- The child branch of the generic launch (lines 587-645); `name` is
`args[0]`. The branch ends in `next_command` when it is left through
`continue`. -/
def launch_child (s : Shell) (name : String) (c : Command) (env : Env) : Shell × Control :=
  let s := { s with pid := env.getpid_child }
  let s := if !c.background then set_terminal s s.pid else s
  let s := restore_terminal_signals s
  let r := child_redirections s c env
  if r.2 = false then (r.1, .next_command)
  else exec_or_fail r.1 (some name) c.args env

/-- The generic launch (lines 548-650); `name` is `args[0]`. -/
def launch (s : Shell) (name : String) (c : Command) (env : Env) : Shell × Control :=
  let pid_fork := env.fork 0
  let s := s.emit (.fork pid_fork)
  if pid_fork > 0 then
    (launch_parent s name c.background pid_fork env, .next_command)
  else if pid_fork = 0 then
    launch_child s name c env
  else
    (s.perror "Fork error", .next_command)

/-- The dispatch of the main loop on `args[0]` (lines 144-650). -/
def dispatch (s : Shell) (c : Command) (env : Env) : Shell × Control :=
  match c.args.head? with
  | none => (s, .next_command)
  | some name =>
    if name = "exit" then builtin_exit s
    else if name = "cd" then builtin_cd s c env
    else if name = "jobs" then builtin_jobs s
    else if name = "fg" then builtin_fg s c env
    else if name = "bg" then builtin_bg s c env
    else if name = "currjob" then builtin_currjob s
    else if name = "deljob" then builtin_deljob s
    else if name = "zjobs" then builtin_zjobs s env
    else if name = "bgteam" then builtin_bgteam s c env
    else if name = "fico" then builtin_fico s c env
    else if name = "mask" then builtin_mask s c env
    else launch s name c env

/-- One turn of the `while (1)` loop of `main` (lines 135-650): `buf` is the
buffer `args` and `file_in`, `file_out` the targets as `get_command` and
`parse_redirections` leave them. The result is `none` only when
`parse_append_redirection` has none. -/
def main_iteration (s : Shell) (buf : Args) (background : Bool)
    (file_in file_out : Option String) (env : Env) : Option (Shell × Control) :=
  let s := s.printf "COMMAND->" []
  match parse_append_redirection buf with
  | none => none
  | some p =>
    let s := p.stderr.foldl (fun s text => s.emit (.fprintf_stderr text)) s
    some (dispatch s ⟨argv p.args, background, file_in, file_out, p.file_out⟩ env)

/-! ## Definitions used to state the properties -/

/-- The poll recorded by an action: the group polled and the value returned,
for a non-blocking `waitpid`. -/
def polled : Event → Option (Int × Int)
  | .waitpid pgid true ret => some (pgid, ret)
  | _ => none

/-- What the specification says `sigchld_handler` leaves of the job `j` when
the poll of `j` answers `pid_wait` with status `st`: the poll reports a change
when it returns the group polled; a job reported EXITED or SIGNALED is
removed (`none`), a job reported SUSPENDED is STOPPED, a job reported
CONTINUED is BACKGROUND, and a job with no change or an error is left as it
is. -/
def handler_outcome_spec (j : job) (pid_wait : Int) (st : wstatus) : Option job :=
  if pid_wait = j.pgid then
    match (analyze_status st).1 with
    | .EXITED => none
    | .SIGNALED => none
    | .SUSPENDED => some { j with state := .STOPPED }
    | .CONTINUED => some { j with state := .BACKGROUND }
  else some j

/-- An environment for examples: `fork` returns 100, 101, ...; `waitpid`
returns 100 with an exit status 0; every other call succeeds. -/
def Env.sample : Env where
  fork := fun i => 100 + i
  getpid_child := 100
  killpg := 0
  waitpid := 100
  wait_status := .exited 0
  execvp_ok := true
  chdir := 0
  open_file := fun _ _ => 3
  dup2 := fun _ newfd => newfd
  getenv_HOME := some "/root"
  proc := some []

/-- The first tokens that the dispatch of `main` treats as built-in
commands. -/
def builtin_names : List String :=
  ["exit", "cd", "jobs", "fg", "bg", "currjob", "deljob", "zjobs", "bgteam", "fico", "mask"]

/-- A well-formed `mask` line: `mask <sig>... -c <cmd> [args]` with at most
100 signal tokens (the capacity of `signals`), each of them a positive `int`
for `atoi`. -/
def MaskLine (args : List String) : Prop :=
  ∃ (sigs : List String) (name : String) (more : List String),
    args = "mask" :: (sigs ++ "-c" :: name :: more) ∧ "-c" ∉ sigs
      ∧ sigs.length ≤ 100 ∧ ∀ a ∈ sigs, 0 < atoi a

/-- The command is a launch through the generic branch, `fico` or `mask`. -/
def Launches (c : Command) : Prop :=
  (∃ name, c.args.head? = some name ∧ name ∉ builtin_names)
    ∨ c.args.head? = some "fico"
    ∨ MaskLine c.args

/-- The situations of the terminal-reclaim property: a foreground launch
whose `fork` returns a child (the parent branch), or an `fg` whose position
lookup finds a job. -/
def ForegroundRun (s : Shell) (c : Command) (env : Env) : Prop :=
  (c.background = false ∧ 0 < env.fork 0 ∧ Launches c)
    ∨ (c.args.head? = some "fg"
        ∧ (get_item_bypos s.my_job_list (position_arg c.args)).isSome)

/-- The shell as `fg` has it when it looks the job up: `SIGCHLD` blocked and
the lookup recorded (lines 193-194). -/
def fg_lookup (s : Shell) (c : Command) : Shell :=
  (block_SIGCHLD s).access (.get_item_bypos (position_arg c.args))

/-- The command line is `fg pos`: the bare `fg`, which stands for position 1,
or `fg` followed by a token that `atoi` reads as `pos`. -/
def FgLine (args : List String) (pos : Int) : Prop :=
  (args = ["fg"] ∧ pos = 1) ∨ ∃ tok more, args = "fg" :: tok :: more ∧ atoi tok = pos

/-- The command lines of the unique-pgid property: `bgteam`, or a line with
the `&` marker that the dispatch sends to the generic launch, `fico` or
`mask`. -/
def BackgroundLaunch (c : Command) : Prop :=
  c.args.head? = some "bgteam"
    ∨ (c.background = true
        ∧ ∃ name, c.args.head? = some name
            ∧ name ∉ ["exit", "cd", "jobs", "fg", "bg", "currjob", "deljob", "zjobs", "bgteam"])

/-- The number of times the command calls `fork` in the shell: the count of
`bgteam`, one for the other launches. -/
def fork_calls (c : Command) : Nat :=
  if c.args.head? = some "bgteam" then
    match c.args[1]? with
    | some count => (atoi count).toNat
    | none => 0
  else 1

/-- Every process creation of the command returns a pid different from the
pgid of every job in the list at that moment: the jobs of `s` and the
children created earlier by the same command. -/
def FreshPids (s : Shell) (c : Command) (env : Env) : Prop :=
  ∀ i, i < fork_calls c → 0 < env.fork i →
    env.fork i ∉ pgids s.my_job_list ∧ ∀ j, j < i → env.fork j ≠ env.fork i

/-- The shells reached from the initial one by background launches with
fresh pids and invocations of the `SIGCHLD` handler, in any order. A
`bgteam` may run as a whole (`launch`) or turn by turn of its loop
(`bgteam_turn`, the `i`-th turn alone), so that the handler may also run
between two of its process creations. -/
inductive Reachable (pid : Int) : Shell → Prop
  | init : Reachable pid (Shell.init pid)
  | launch (s : Shell) (c : Command) (env : Env) :
      Reachable pid s → BackgroundLaunch c → FreshPids s c env →
      Reachable pid (dispatch s c env).1
  | bgteam_turn (s : Shell) (args : List String) (cmd : String) (env : Env) (i : Nat) :
      Reachable pid s → (0 < env.fork i → env.fork i ∉ pgids s.my_job_list) →
      Reachable pid (bgteam_loop args cmd env 1 i s).1
  | handler (s : Shell) (waitpid : Nat → Int × wstatus) :
      Reachable pid s → Reachable pid (sigchld_handler s waitpid)

/-- The actions of one turn of the `bgteam` loop in the shell when `fork`
returns the child `pid_fork` (lines 374-381). -/
def bgteam_parent_events (cmd : String) (pid_fork : Int) : List Event :=
  [.fork pid_fork, .new_process_group pid_fork,
   .printf "Background job running... pid: %d, command %s\n" [.int pid_fork, .str cmd],
   .block_SIGCHLD, .job_list (.add_job ⟨pid_fork, cmd, .BACKGROUND⟩) true, .unblock_SIGCHLD]

/-- Whether an action is a call of `fork`. -/
def is_fork : Event → Bool
  | .fork _ => true
  | _ => false

/-- The number of signal tokens of a `mask` line that `atoi` does not turn
into a positive number; the signal loop prints one error line for each. -/
def bad_signals (sigs : List String) : Nat :=
  (sigs.filter (fun a => decide (atoi a ≤ 0))).length

/-- The error line of `mask` (lines 475 and 484). -/
def mask_error_line : Event :=
  .printf "mask: error de sintaxis\n" []

/-- An environment for examples of a child whose redirection fails: `fork`
returns 0 (the child branch), the child has pid 100, every `open` returns -1,
and `dup2` returns -1 on the descriptor -1 and the new descriptor
otherwise. -/
def Env.failing_open : Env :=
  { Env.sample with
    fork := fun _ => 0,
    getpid_child := 100,
    open_file := fun _ _ => -1,
    dup2 := fun oldfd newfd => if oldfd = -1 then -1 else newfd }

/-- An environment for examples of a child whose `dup2` fails: `fork` returns
0, the child has pid 100, every `open` returns descriptor 3 and every `dup2`
returns -1. -/
def Env.failing_dup2 : Env :=
  { Env.sample with
    fork := fun _ => 0,
    getpid_child := 100,
    open_file := fun _ _ => 3,
    dup2 := fun _ _ => -1 }

/-- A redirection of the command fails in the child: the input file cannot be
opened or duplicated onto descriptor 0, or the descriptor of an output file
(truncating or appending) cannot be duplicated onto descriptor 1, which is
also what happens to the descriptor -1 of an output file that cannot be
opened. -/
def RedirectionFails (c : Command) (env : Env) : Prop :=
  (∃ f, c.file_in = some f
      ∧ (env.open_file f .rdonly = -1 ∨ env.dup2 (env.open_file f .rdonly) 0 = -1))
    ∨ (∃ f, c.file_out = some f ∧ env.dup2 (env.open_file f .creat_trunc) 1 = -1)
    ∨ (∃ f, c.file_out_append = some f ∧ env.dup2 (env.open_file f .creat_append) 1 = -1)

/-! ## The append-redirection scanner -/

theorem shift_left_spec (ts : List String) :
    ∀ (fuel : Nat) (A : Args) (x y : Option String) (rest : Args),
      ts.length < fuel →
      ∃ y', shift_left fuel (A ++ x :: y :: (ts.map some ++ none :: rest)) (A.length + 2)
        = some (A ++ (ts.map some ++ none :: y' :: none :: rest)) := by
  induction ts with
  | nil =>
    intro fuel A x y rest hf
    obtain ⟨f, rfl⟩ : ∃ f, fuel = f + 1 := ⟨fuel - 1, by omega⟩
    refine ⟨y, ?_⟩
    have h : (A ++ x :: y :: none :: rest)[A.length + 2]? = some none := by
      rw [List.getElem?_append_right (by omega)]
      simp
    simp [shift_left, h, List.set_append]
  | cons t ts ih =>
    intro fuel A x y rest hf
    obtain ⟨f, rfl⟩ : ∃ f, fuel = f + 1 := ⟨fuel - 1, by omega⟩
    have h : (A ++ x :: y :: ((t :: ts).map some ++ none :: rest))[A.length + 2]? = some (some t) := by
      rw [List.getElem?_append_right (by omega)]
      simp
    obtain ⟨y', hy⟩ := ih f (A ++ [some t]) y (some t) rest (by simpa using hf)
    refine ⟨y', ?_⟩
    simp only [shift_left, h]
    have e : (A ++ x :: y :: ((t :: ts).map some ++ none :: rest)).set (A.length + 2 - 2) (some t)
        = (A ++ [some t]) ++ y :: some t :: (ts.map some ++ none :: rest) := by
      simp [List.set_append]
    rw [e]
    have hl : A.length + 2 + 1 = (A ++ [some t]).length + 2 := by simp
    rw [hl, hy]
    simp


theorem parse_loop_skip (pre : List String) :
    ∀ (fuel : Nat) (A tail : Args) (fo : Option String) (err : List String),
      ">>" ∉ pre →
      parse_loop (fuel + pre.length) (A ++ (pre.map some ++ tail)) A.length fo err
        = parse_loop fuel (A ++ (pre.map some ++ tail)) (A.length + pre.length) fo err := by
  induction pre with
  | nil => intro fuel A tail fo err _; simp
  | cons t pre ih =>
    intro fuel A tail fo err hpre
    have ht : t ≠ ">>" := fun h => hpre (by simp [h])
    have hp : ">>" ∉ pre := fun h => hpre (by simp [h])
    have h : (A ++ ((t :: pre).map some ++ tail))[A.length]? = some (some t) := by
      rw [List.getElem?_append_right (by omega)]
      simp
    have e : A ++ ((t :: pre).map some ++ tail) = (A ++ [some t]) ++ (pre.map some ++ tail) := by
      simp
    have hf : fuel + (t :: pre).length = (fuel + pre.length) + 1 := by simp; omega
    rw [hf, parse_loop]
    simp only [h, ht, if_false]
    rw [e]
    have hl : A.length + 1 = (A ++ [some t]).length := by simp
    rw [hl, ih fuel (A ++ [some t]) tail fo err hp]
    simp
    congr 1
    omega

theorem parse_loop_end (fuel : Nat) (buf : Args) (n : Nat) (fo : Option String)
    (err : List String) (h : buf[n]? = some none) :
    parse_loop (fuel + 1) buf n fo err = some ⟨buf, fo, err⟩ := by
  simp [parse_loop, h]


theorem parse_loop_marker (fuel : Nat) (pre post : List String) (f : String) (rest : Args)
    (fo : Option String) (err : List String)
    (hpre : ">>" ∉ pre) (hpost : ">>" ∉ post)
    (hfuel : pre.length + post.length + 2 ≤ fuel) :
    ∃ y, parse_loop fuel (pre.map some ++ some ">>" :: some f :: (post.map some ++ none :: rest))
        0 fo err
      = some ⟨pre.map some ++ (post.map some ++ none :: y :: none :: rest), some f, err⟩ := by
  obtain ⟨k, rfl⟩ : ∃ k, fuel = (k + post.length + 1) + pre.length :=
    ⟨fuel - pre.length - post.length - 1, by omega⟩
  have hk : 1 ≤ k := by omega
  obtain ⟨k, rfl⟩ : ∃ j, k = j + 1 := ⟨k - 1, by omega⟩
  have h0 := parse_loop_skip pre (k + 1 + post.length + 1) []
    (some ">>" :: some f :: (post.map some ++ none :: rest)) fo err hpre
  simp only [List.nil_append, List.length_nil, Nat.zero_add] at h0
  rw [h0]
  set buf : Args := pre.map some ++ some ">>" :: some f :: (post.map some ++ none :: rest)
    with hbuf
  have h1 : buf[pre.length]? = some (some ">>") := by
    rw [hbuf, List.getElem?_append_right (by simp)]
    simp
  have h2 : buf[pre.length + 1]? = some (some f) := by
    rw [hbuf, List.getElem?_append_right (by simp)]
    simp
  obtain ⟨y, hy⟩ := shift_left_spec post buf.length (pre.map some) (some ">>") (some f) rest
    (by rw [hbuf]; simp; omega)
  refine ⟨y, ?_⟩
  rw [List.length_map] at hy
  rw [parse_loop]
  simp only [h1, h2, if_true]
  rw [hy]
  simp only []
  have h3 := parse_loop_skip post (k + 1) (pre.map some) (none :: y :: none :: rest)
    (some f) err hpost
  rw [List.length_map] at h3
  rw [h3]
  apply parse_loop_end
  rw [← List.append_assoc, List.getElem?_append_right (by simp)]
  simp

theorem parse_loop_missing (fuel : Nat) (pre : List String) (rest : Args)
    (fo : Option String) (err : List String)
    (hpre : ">>" ∉ pre) (hfuel : pre.length + 2 ≤ fuel) :
    parse_loop fuel (pre.map some ++ some ">>" :: none :: rest) 0 fo err
      = some ⟨(pre.map some ++ some ">>" :: none :: rest).set 0 none, fo,
          err ++ ["syntax error in redirection\n"]⟩ := by
  obtain ⟨k, rfl⟩ : ∃ k, fuel = (k + 2) + pre.length := ⟨fuel - pre.length - 2, by omega⟩
  have h0 := parse_loop_skip pre (k + 2) [] (some ">>" :: none :: rest) fo err hpre
  simp only [List.nil_append, List.length_nil, Nat.zero_add] at h0
  rw [h0]
  set buf : Args := pre.map some ++ some ">>" :: none :: rest with hbuf
  have h1 : buf[pre.length]? = some (some ">>") := by
    rw [hbuf, List.getElem?_append_right (by simp)]
    simp
  have h2 : buf[pre.length + 1]? = some none := by
    rw [hbuf, List.getElem?_append_right (by simp)]
    simp
  rw [parse_loop]
  simp only [h1, h2, if_true]
  apply parse_loop_end
  rw [List.getElem?_set_ne (by omega)]
  exact h2

theorem argv_of_tokens (v : List String) (rest : Args) :
    argv (v.map some ++ none :: rest) = v := by
  induction v with
  | nil => simp [argv]
  | cons t v ih => simp [argv, ih]

theorem split_single_marker (toks : List String) (i : Nat) (f : String)
    (hmark : toks[i]? = some ">>") (hone : toks.count ">>" = 1)
    (hnext : toks[i + 1]? = some f) :
    toks = toks.take i ++ ">>" :: f :: toks.drop (i + 2)
      ∧ ">>" ∉ toks.take i ∧ ">>" ∉ toks.drop (i + 2) := by
  have hi : i < toks.length := by
    rcases Nat.lt_or_ge i toks.length with h | h
    · exact h
    · rw [List.getElem?_eq_none h] at hmark; cases hmark
  have hi1 : i + 1 < toks.length := by
    rcases Nat.lt_or_ge (i + 1) toks.length with h | h
    · exact h
    · rw [List.getElem?_eq_none h] at hnext; cases hnext
  have e1 : toks.drop i = ">>" :: toks.drop (i + 1) := by
    rw [List.drop_eq_getElem_cons hi]
    rw [List.getElem?_eq_getElem hi] at hmark
    simp at hmark
    rw [hmark]
  have e2 : toks.drop (i + 1) = f :: toks.drop (i + 2) := by
    rw [List.drop_eq_getElem_cons hi1]
    rw [List.getElem?_eq_getElem hi1] at hnext
    simp at hnext
    rw [hnext]
  have e : toks = toks.take i ++ ">>" :: f :: toks.drop (i + 2) := by
    conv_lhs => rw [← List.take_append_drop i toks, e1, e2]
  refine ⟨e, ?_, ?_⟩
  · intro hin
    have := List.count_pos_iff.mpr hin
    rw [e] at hone
    simp [List.count_cons] at hone
    omega
  · intro hin
    have := List.count_pos_iff.mpr hin
    rw [e] at hone
    simp [List.count_cons] at hone
    omega


/-- C1. `parse_append_redirection`, single marker: when the vector holds
exactly one `>>`, at index `i`, and a token `f` at index `i + 1`, the call
returns, sets `*file_out` to `f`, writes nothing to `stderr`, and leaves a
NULL-terminated buffer whose vector is the original one without the tokens
at `i` and `i + 1`, the others in their order. -/
theorem parse_append_redirection_single_marker (toks : List String) (i : Nat) (f : String)
    (rest : Args) (hmark : toks[i]? = some ">>") (hone : toks.count ">>" = 1)
    (hnext : toks[i + 1]? = some f) :
    ∃ buf, parse_append_redirection (toks.map some ++ none :: rest)
        = some ⟨buf, some f, []⟩
      ∧ Holds buf (toks.take i ++ toks.drop (i + 2))
      ∧ argv buf = toks.take i ++ toks.drop (i + 2) := by
  obtain ⟨e, hpre, hpost⟩ := split_single_marker toks i f hmark hone hnext
  obtain ⟨y, hy⟩ := parse_loop_marker ((toks.map some ++ none :: rest).length + 1)
    (toks.take i) (toks.drop (i + 2)) f rest none [] hpre hpost (by
      have hl := congrArg List.length e
      simp only [List.length_append, List.length_cons, List.length_map] at hl ⊢
      omega)
  have hbuf : toks.map some ++ none :: rest
      = (toks.take i).map some ++ some ">>" :: some f ::
          ((toks.drop (i + 2)).map some ++ none :: rest) := by
    conv_lhs => rw [e]
    simp
  refine ⟨(toks.take i).map some ++ ((toks.drop (i + 2)).map some ++ none :: y :: none :: rest),
    ?_, ⟨y :: none :: rest, by simp⟩, ?_⟩
  · unfold parse_append_redirection
    rw [← hbuf] at hy
    exact hy
  · rw [← List.append_assoc, ← List.map_append]
    exact argv_of_tokens _ _

/-- Witness of C1: `ls >> out.txt -l` leaves `ls -l` and the target
`out.txt`. -/
theorem parse_append_redirection_single_marker_witness :
    (["ls", ">>", "out.txt", "-l"][1]? = some ">>"
      ∧ ["ls", ">>", "out.txt", "-l"].count ">>" = 1
      ∧ ["ls", ">>", "out.txt", "-l"][1 + 1]? = some "out.txt")
    ∧ ∃ buf, parse_append_redirection (["ls", ">>", "out.txt", "-l"].map some ++ none :: [])
        = some ⟨buf, some "out.txt", []⟩
      ∧ Holds buf (["ls", ">>", "out.txt", "-l"].take 1 ++ ["ls", ">>", "out.txt", "-l"].drop (1 + 2))
      ∧ argv buf
          = ["ls", ">>", "out.txt", "-l"].take 1 ++ ["ls", ">>", "out.txt", "-l"].drop (1 + 2) :=
  ⟨⟨by decide, by decide, by decide⟩,
    parse_append_redirection_single_marker ["ls", ">>", "out.txt", "-l"] 1 "out.txt" []
      (by decide) (by decide) (by decide)⟩

/-- C2. `parse_append_redirection`, missing target: on a vector `t1 ... tk >>`
with no `>>` among `t1 ... tk`, the call returns with `*file_out` NULL, one
syntax-error line on `stderr` and `args_start[0]` NULL, so that the vector is
empty; the turn of the main loop on this line then performs the prompt and
the error line only and goes on to the next command: no `fork`, the job list,
the mask and the terminal as before. -/
theorem parse_append_redirection_missing_target (pre : List String) (rest : Args)
    (hpre : ">>" ∉ pre) :
    parse_append_redirection ((pre ++ [">>"]).map some ++ none :: rest)
        = some ⟨((pre ++ [">>"]).map some ++ none :: rest).set 0 none, none,
            ["syntax error in redirection\n"]⟩
      ∧ argv (((pre ++ [">>"]).map some ++ none :: rest).set 0 none) = []
      ∧ ∀ (s : Shell) (background : Bool) (file_in file_out : Option String) (env : Env),
          main_iteration s ((pre ++ [">>"]).map some ++ none :: rest) background
              file_in file_out env
            = some ({ s with trace := s.trace ++ [.printf "COMMAND->" [],
                        .fprintf_stderr "syntax error in redirection\n"] },
                    .next_command) := by
  have hbuf : (pre ++ [">>"]).map some ++ none :: rest
      = pre.map some ++ some ">>" :: none :: rest := by simp
  have h1 : parse_append_redirection ((pre ++ [">>"]).map some ++ none :: rest)
      = some ⟨((pre ++ [">>"]).map some ++ none :: rest).set 0 none, none,
          ["syntax error in redirection\n"]⟩ := by
    unfold parse_append_redirection
    rw [hbuf]
    have := parse_loop_missing ((pre.map some ++ some ">>" :: none :: rest).length + 1)
      pre rest none [] hpre (by simp)
    simpa using this
  have h2 : argv (((pre ++ [">>"]).map some ++ none :: rest).set 0 none) = [] := by
    rw [hbuf]
    cases pre <;> simp [argv]
  refine ⟨h1, h2, ?_⟩
  intro s background file_in file_out env
  have h3 := h2
  rw [hbuf] at h3
  unfold main_iteration
  rw [h1]
  simp [h3, dispatch, Shell.printf, Shell.emit]

/-- Witness of C2: `ls -l >>`. -/
theorem parse_append_redirection_missing_target_witness :
    ">>" ∉ ["ls", "-l"]
    ∧ parse_append_redirection ((["ls", "-l"] ++ [">>"]).map some ++ none :: [])
        = some ⟨((["ls", "-l"] ++ [">>"]).map some ++ none :: []).set 0 none, none,
            ["syntax error in redirection\n"]⟩ :=
  ⟨by decide, (parse_append_redirection_missing_target ["ls", "-l"] [] (by decide)).1⟩

/-! ## The `SIGCHLD` handler -/

theorem handler_body_job (j : job) (pid_wait : Int) (st : wstatus) :
    (handler_body j pid_wait st).1 = handler_outcome_spec j pid_wait st := by
  unfold handler_body handler_outcome_spec
  by_cases h : pid_wait = j.pgid
  · cases st <;> simp [h, analyze_status]
  · by_cases h1 : pid_wait = -1
    · subst h1; simp [h]
    · simp [h, h1]

theorem handler_body_polled (j : job) (pid_wait : Int) (st : wstatus) :
    (handler_body j pid_wait st).2.filterMap polled = [(j.pgid, pid_wait)] := by
  unfold handler_body
  by_cases h : pid_wait = j.pgid
  · cases st <;> simp [h, analyze_status, polled]
  · by_cases h1 : pid_wait = -1
    · subst h1; simp [h, polled]
    · simp [h, h1, polled]

theorem handler_outcome_key (j j2 : job) (pid_wait : Int) (st : wstatus)
    (h : handler_outcome_spec j pid_wait st = some j2) :
    j2.pgid = j.pgid ∧ j2.command = j.command := by
  unfold handler_outcome_spec at h
  by_cases hp : pid_wait = j.pgid
  · cases st <;> simp [hp, analyze_status] at h <;> subst h <;> simp
  · simp [hp] at h
    subst h
    simp

theorem handler_loop_spec (waitpid : Nat → Int × wstatus) (l : List job) :
    ∀ k : Nat,
      (handler_loop waitpid l k).1
          = (l.enumFrom k).filterMap
              (fun p => handler_outcome_spec p.2 (waitpid p.1).1 (waitpid p.1).2)
        ∧ (handler_loop waitpid l k).2.filterMap polled
          = (l.enumFrom k).map (fun p => (p.2.pgid, (waitpid p.1).1))
        ∧ List.Sublist ((handler_loop waitpid l k).1.map (fun j => (j.pgid, j.command)))
            (l.map (fun j => (j.pgid, j.command))) := by
  induction l with
  | nil => intro k; simp [handler_loop]
  | cons j l ih =>
    intro k
    obtain ⟨h1, h2, h3⟩ := ih (k + 1)
    refine ⟨?_, ?_, ?_⟩
    · simp only [handler_loop, List.enumFrom_cons, List.filterMap_cons, handler_body_job, h1]
      cases handler_outcome_spec j (waitpid k).1 (waitpid k).2 <;> simp
    · simp only [handler_loop, List.enumFrom_cons, List.filterMap_append, handler_body_polled,
        h2, List.map_cons]
      simp
    · simp only [handler_loop, handler_body_job, List.map_append, List.map_cons]
      cases hj : handler_outcome_spec j (waitpid k).1 (waitpid k).2 with
      | none => simpa using h3.cons _
      | some j2 =>
        obtain ⟨e1, e2⟩ := handler_outcome_key j j2 _ _ hj
        simpa [e1, e2] using h3.cons₂ (j.pgid, j.command)

/-- C3. One invocation of `sigchld_handler`, whatever the polls answer: the
handler polls the jobs of the list once each, in list order (the `k`-th poll
is for the `k`-th job); the list it leaves is the old one with each job
replaced by what the specification says for the answer of its poll (removed
when EXITED or SIGNALED, STOPPED when SUSPENDED, BACKGROUND when CONTINUED,
untouched when there is no change or an error); the surviving jobs keep their
order, pgid and command and none is added; nothing else of the shell
changes. -/
theorem sigchld_handler_spec (s : Shell) (waitpid : Nat → Int × wstatus) :
    ∃ evs, (sigchld_handler s waitpid).trace = s.trace ++ evs
      ∧ evs.filterMap polled
          = s.my_job_list.enum.map (fun p => (p.2.pgid, (waitpid p.1).1))
      ∧ (sigchld_handler s waitpid).my_job_list
          = s.my_job_list.enum.filterMap
              (fun p => handler_outcome_spec p.2 (waitpid p.1).1 (waitpid p.1).2)
      ∧ List.Sublist
          ((sigchld_handler s waitpid).my_job_list.map (fun j => (j.pgid, j.command)))
          (s.my_job_list.map (fun j => (j.pgid, j.command)))
      ∧ (sigchld_handler s waitpid).pid = s.pid
      ∧ (sigchld_handler s waitpid).terminal = s.terminal
      ∧ (sigchld_handler s waitpid).sigchld_blocked = s.sigchld_blocked := by
  obtain ⟨h1, h2, h3⟩ := handler_loop_spec waitpid s.my_job_list 0
  exact ⟨(handler_loop waitpid s.my_job_list 0).2, rfl, h2, h1, h3, rfl, rfl, rfl⟩

/-! ## The blocking protocol -/

/-- C4, evaluated where it fails. From the initial shell (pid 1, `SIGCHLD`
deliverable): (1) the foreground command `sleep 100`, stopped by signal 20,
inserts its job with `SIGCHLD` not blocked, whereas `fico` in the same
situation blocks around the insertion; (2) `jobs` reads the list with
`SIGCHLD` not blocked; (3) `fg` on a job whose `killpg` fails deletes the job
after having unblocked `SIGCHLD`. -/
theorem job_list_access_unblocked :
    (dispatch (Shell.init 1) ⟨["sleep", "100"], false, none, none, none⟩
        { Env.sample with wait_status := .stopped 20 }).1.trace
      = [.fork 100, .new_process_group 100, .set_terminal 100, .waitpid 100 false 100,
         .set_terminal 1,
         .printf "Foreground pid: %d, command: %s, %s, info: %d\n"
           [.int 100, .str "sleep", .status_string .SUSPENDED, .int 20],
         .printf "Stopped pid: %d, command: %s, %s, info: %d\n"
           [.int 100, .str "sleep", .status_string .SUSPENDED, .int 20],
         .job_list (.add_job ⟨100, "sleep", .STOPPED⟩) false]
    ∧ (dispatch (Shell.init 1) ⟨["fico"], false, none, none, none⟩
        { Env.sample with wait_status := .stopped 20 }).1.trace
      = [.fork 100, .new_process_group 100, .set_terminal 100, .waitpid 100 false 100,
         .set_terminal 1,
         .printf "Foreground pid: %d, command: fico, %s, info: %d\n"
           [.int 100, .status_string .SUSPENDED, .int 20],
         .printf "Stopped pid: %d, command:fico, %s, info: %d\n"
           [.int 100, .status_string .SUSPENDED, .int 20],
         .block_SIGCHLD,
         .job_list (.add_job ⟨100, "fico", .STOPPED⟩) true,
         .unblock_SIGCHLD]
    ∧ (dispatch (Shell.init 1) ⟨["jobs"], false, none, none, none⟩ Env.sample).1.trace
      = [.job_list .empty_list false,
         .printf "There are no jobs in background or stopped\n" []]
    ∧ (dispatch { Shell.init 1 with my_job_list := [⟨100, "sleep", .STOPPED⟩] }
        ⟨["fg"], false, none, none, none⟩ { Env.sample with killpg := -1 }).1.trace
      = [.block_SIGCHLD, .job_list (.get_item_bypos 1) true,
         .printf "Resuming job in foreground: [%d] %s\n" [.int 1, .str "sleep"],
         .set_terminal 100,
         .job_list (.set_state ⟨100, "sleep", .STOPPED⟩ .FOREGROUND) true,
         .killpg_SIGCONT 100 (-1),
         .perror "fg error", .unblock_SIGCHLD, .set_terminal 1,
         .job_list (.delete_job ⟨100, "sleep", .FOREGROUND⟩) false,
         .unblock_SIGCHLD, .waitpid 100 false 100, .set_terminal 1, .block_SIGCHLD,
         .printf "Process completed with exit code: %d\n" [.int 0],
         .printf "Foreground pid: %d, command: %s, %s, info: %d\n"
           [.int 100, .str "sleep", .status_string .EXITED, .int 0],
         .unblock_SIGCHLD] := by
  refine ⟨?_, ?_, ?_, ?_⟩ <;> rfl

/-! ## Terminal ownership -/

theorem launch_parent_terminal (s : Shell) (name : String) (pid_fork : Int) (env : Env) :
    (launch_parent s name false pid_fork env).terminal = s.pid := by
  unfold launch_parent
  simp only [Bool.not_false, if_true]
  split_ifs <;> try split
  all_goals simp [set_terminal, new_process_group, Shell.emit, Shell.printf, Shell.perror,
    Shell.add_job, Shell.access]

theorem fico_parent_terminal (s : Shell) (pid_fork : Int) (env : Env) :
    (fico_parent s false pid_fork env).terminal = s.pid := by
  unfold fico_parent
  simp only [Bool.not_false, if_true]
  split_ifs <;> try split
  all_goals simp [set_terminal, new_process_group, Shell.emit, Shell.printf, Shell.perror,
    Shell.add_job, Shell.access, block_SIGCHLD, unblock_SIGCHLD]

theorem fg_resume_pid (s : Shell) (pos : Int) (ref : Nat) (fg_job : job) (env : Env) :
    (fg_resume s pos ref fg_job env).pid = s.pid := by
  unfold fg_resume
  simp only []
  split_ifs <;>
    simp [set_terminal, Shell.emit, Shell.printf, Shell.perror, Shell.delete_job,
      Shell.set_state, Shell.access, block_SIGCHLD, unblock_SIGCHLD]

theorem fg_wait_terminal (s : Shell) (pgid : Int) (command : String) (env : Env) :
    (fg_wait s pgid command env).terminal = s.pid := by
  unfold fg_wait
  simp only []
  split_ifs <;> try split
  all_goals simp [set_terminal, Shell.emit, Shell.printf, Shell.perror,
    Shell.add_job, Shell.access, block_SIGCHLD, unblock_SIGCHLD]

theorem mask_scan_signals (sigs : List String) :
    ∀ (s : Shell) (acc : List Int) (tail : List String),
      "-c" ∉ sigs → acc.length + sigs.length ≤ 100 → (∀ a ∈ sigs, 0 < atoi a) →
      mask_scan (sigs ++ "-c" :: tail) s acc false
        = some (s, acc ++ sigs.map atoi, false, "-c" :: tail) := by
  induction sigs with
  | nil => intro s acc tail _ _ _; simp [mask_scan]
  | cons a sigs ih =>
    intro s acc tail hc hlen hpos
    have ha : a ≠ "-c" := fun h => hc (by simp [h])
    have hap : ¬ atoi a ≤ 0 := by
      have := hpos a (by simp)
      omega
    have hcap : ¬ 100 ≤ acc.length := by
      simp only [List.length_cons] at hlen
      omega
    have := ih s (acc ++ [atoi a]) tail (fun h => hc (by simp [h]))
      (by simp only [List.length_append, List.length_cons, List.length_nil] at hlen ⊢; omega)
      (fun b hb => hpos b (by simp [hb]))
    rw [List.cons_append, mask_scan, if_neg ha, if_neg hcap, if_neg hap, this]
    simp

theorem dispatch_launch (s : Shell) (c : Command) (env : Env) (name : String)
    (hname : c.args.head? = some name) (hgen : name ∉ builtin_names) :
    dispatch s c env = launch s name c env := by
  simp only [builtin_names, List.mem_cons, List.mem_singleton, not_or, List.not_mem_nil,
    not_false_eq_true, and_true] at hgen
  obtain ⟨h1, h2, h3, h4, h5, h6, h7, h8, h9, h10, h11⟩ := hgen
  simp [dispatch, hname, h1, h2, h3, h4, h5, h6, h7, h8, h9, h10, h11]

theorem dispatch_fico (s : Shell) (c : Command) (env : Env)
    (hname : c.args.head? = some "fico") :
    dispatch s c env = builtin_fico s c env := by
  simp [dispatch, hname]

theorem dispatch_mask (s : Shell) (c : Command) (env : Env)
    (hname : c.args.head? = some "mask") :
    dispatch s c env = builtin_mask s c env := by
  simp [dispatch, hname]

theorem dispatch_fg (s : Shell) (c : Command) (env : Env)
    (hname : c.args.head? = some "fg") :
    dispatch s c env = builtin_fg s c env := by
  simp [dispatch, hname]

theorem builtin_mask_parent (s : Shell) (c : Command) (env : Env)
    (sigs : List String) (name : String) (more : List String)
    (hargs : c.args = "mask" :: (sigs ++ "-c" :: name :: more)) (hc : "-c" ∉ sigs)
    (hlen : sigs.length ≤ 100) (hpos : ∀ a ∈ sigs, 0 < atoi a) (hfork : 0 < env.fork 0) :
    builtin_mask s c env
      = (launch_parent (s.emit (.fork (env.fork 0))) name c.background (env.fork 0) env,
          .next_command) := by
  unfold builtin_mask
  rw [hargs]
  simp only [List.drop_succ_cons, List.drop_zero]
  rw [mask_scan_signals sigs s [] (name :: more) hc (by simpa using hlen) hpos]
  simp [hfork]

/-- C5. Terminal reclaim: after a foreground launch in the parent branch
(generic, `fico`, or `mask` on a line whose signal tokens, at most 100, are
positive `int`s) and after an `fg` that finds a job, whatever `waitpid` and
`killpg` return, the foreground group of the terminal is the shell's own
process group. -/
theorem terminal_reclaimed (s : Shell) (c : Command) (env : Env)
    (h : ForegroundRun s c env) :
    (dispatch s c env).1.terminal = s.pid := by
  rcases h with ⟨hbg, hfork, hl⟩ | ⟨hfg, hfound⟩
  · rcases hl with ⟨name, hname, hgen⟩ | hfico | ⟨sigs, name, more, hargs, hc, hlen, hpos⟩
    · rw [dispatch_launch s c env name hname hgen]
      simp only [launch, hfork, if_true, hbg]
      rw [launch_parent_terminal]
      rfl
    · rw [dispatch_fico s c env hfico]
      simp only [builtin_fico, hfork, if_true, hbg]
      rw [fico_parent_terminal]
      rfl
    · rw [dispatch_mask s c env (by rw [hargs]; rfl),
        builtin_mask_parent s c env sigs name more hargs hc hlen hpos hfork, hbg]
      simp only []
      rw [launch_parent_terminal]
      rfl
  · rw [dispatch_fg s c env hfg]
    unfold builtin_fg
    simp only []
    cases hget : get_item_bypos s.my_job_list (position_arg c.args) with
    | none => rw [hget] at hfound; cases hfound
    | some p =>
      obtain ⟨ref, fg_job⟩ := p
      have e : (Shell.access (block_SIGCHLD s) (.get_item_bypos (position_arg c.args))).my_job_list
          = s.my_job_list := rfl
      simp only [e, hget]
      rw [fg_wait_terminal, fg_resume_pid]
      rfl
/-- Witness of C5: `sleep 100` in the foreground from the initial shell. -/
theorem terminal_reclaimed_witness :
    ForegroundRun (Shell.init 1) ⟨["sleep", "100"], false, none, none, none⟩ Env.sample
    ∧ (dispatch (Shell.init 1) ⟨["sleep", "100"], false, none, none, none⟩
        Env.sample).1.terminal = (Shell.init 1).pid :=
  ⟨Or.inl ⟨rfl, by decide, Or.inl ⟨"sleep", rfl, by decide⟩⟩,
    terminal_reclaimed (Shell.init 1) ⟨["sleep", "100"], false, none, none, none⟩ Env.sample
      (Or.inl ⟨rfl, by decide, Or.inl ⟨"sleep", rfl, by decide⟩⟩)⟩

/-! ## The built-ins `fg` and `deljob` -/

theorem get_item_bypos_some (l : List job) (n : Int) (ref : Nat) (J : job)
    (h : get_item_bypos l n = some (ref, J)) : l[ref]? = some J := by
  unfold get_item_bypos at h
  split_ifs at h
  rw [Option.map_eq_some'] at h
  obtain ⟨j, hj, hp⟩ := h
  cases hp
  exact hj

theorem eraseIdx_set_same (l : List job) (a : job) :
    ∀ i : Nat, (l.set i a).eraseIdx i = l.eraseIdx i := by
  induction l with
  | nil => intro i; simp
  | cons x l ih =>
    intro i
    cases i with
    | zero => simp
    | succ i => simp [ih i]

theorem pgid_not_in_erased (l : List job) (ref : Nat) (J : job) (hJ : l[ref]? = some J)
    (hnd : (pgids l).Nodup) : J.pgid ∉ pgids (l.eraseIdx ref) := by
  have hlt : ref < l.length := by
    rcases Nat.lt_or_ge ref l.length with h | h
    · exact h
    · rw [List.getElem?_eq_none h] at hJ; cases hJ
  have hd : l.drop ref = J :: l.drop (ref + 1) := by
    rw [List.drop_eq_getElem_cons hlt]
    rw [List.getElem?_eq_getElem hlt] at hJ
    simp at hJ
    rw [hJ]
  have e : l = l.take ref ++ J :: l.drop (ref + 1) := by
    conv_lhs => rw [← List.take_append_drop ref l, hd]
  rw [List.eraseIdx_eq_take_drop_succ]
  rw [e] at hnd
  simp only [pgids, List.map_append, List.map_cons] at hnd ⊢
  rw [List.nodup_append] at hnd
  obtain ⟨_, h2, h3⟩ := hnd
  rw [List.nodup_cons] at h2
  intro hin
  rcases List.mem_append.mp hin with h | h
  · exact h3 h (by simp)
  · exact h2.1 h

theorem fg_resume_list (s : Shell) (pos : Int) (ref : Nat) (fg_job : job) (env : Env) :
    (fg_resume s pos ref fg_job env).my_job_list = s.my_job_list.eraseIdx ref := by
  unfold fg_resume
  simp only []
  split_ifs <;>
    simp [set_terminal, Shell.emit, Shell.printf, Shell.perror, Shell.delete_job,
      Shell.set_state, Shell.access, block_SIGCHLD, unblock_SIGCHLD, delete_job,
      eraseIdx_set_same]

theorem fg_resume_trace (s : Shell) (pos : Int) (ref : Nat) (fg_job : job) (env : Env) :
    ∃ pre, (fg_resume s pos ref fg_job env).trace = s.trace ++ pre
      ∧ Event.job_list (.delete_job ⟨fg_job.pgid, fg_job.command, .FOREGROUND⟩)
          (if env.killpg = -1 then false else s.sigchld_blocked) ∈ pre
      ∧ ∀ g n r, Event.waitpid g n r ∉ pre := by
  unfold fg_resume
  simp only []
  split_ifs
  all_goals
    simp only [set_terminal, Shell.emit, Shell.printf, Shell.perror, Shell.delete_job,
      Shell.set_state, Shell.access, block_SIGCHLD, unblock_SIGCHLD, List.append_assoc]
    refine ⟨_, rfl, ?_, ?_⟩
    · simp
    · simp

theorem fg_wait_trace (s : Shell) (pgid : Int) (command : String) (env : Env) :
    ∃ post, (fg_wait s pgid command env).trace
      = s.trace ++ Event.waitpid pgid false env.waitpid :: post := by
  unfold fg_wait
  simp only []
  split_ifs <;> try split
  all_goals
    simp only [set_terminal, Shell.emit, Shell.printf, Shell.perror, Shell.add_job,
      Shell.access, block_SIGCHLD, unblock_SIGCHLD, List.append_assoc, List.singleton_append]
    exact ⟨_, rfl⟩

theorem fg_wait_list_stopped (s : Shell) (pgid : Int) (command : String) (env : Env)
    (sig : Int) (hw : env.waitpid ≠ -1) (hst : env.wait_status = .stopped sig) :
    (fg_wait s pgid command env).my_job_list
      = s.my_job_list ++ [⟨pgid, command, .STOPPED⟩] := by
  unfold fg_wait
  simp [hw, hst, set_terminal, Shell.emit, Shell.printf, Shell.add_job, Shell.access,
    block_SIGCHLD, unblock_SIGCHLD, add_job, new_job]

theorem fg_wait_list_other (s : Shell) (pgid : Int) (command : String) (env : Env)
    (h : env.waitpid = -1 ∨ ∀ sig, env.wait_status ≠ .stopped sig) :
    (fg_wait s pgid command env).my_job_list = s.my_job_list := by
  unfold fg_wait
  simp only []
  split_ifs with hw
  · simp [set_terminal, Shell.emit, Shell.perror, block_SIGCHLD, unblock_SIGCHLD]
  · have hs : ∀ sig, env.wait_status ≠ .stopped sig := by
      rcases h with h | h
      · exact absurd h hw
      · exact h
    cases hst : env.wait_status with
    | stopped sig => exact absurd hst (hs sig)
    | continued a =>
      simp [set_terminal, Shell.emit, Shell.printf, block_SIGCHLD, unblock_SIGCHLD]
    | exited a =>
      simp [set_terminal, Shell.emit, Shell.printf, block_SIGCHLD, unblock_SIGCHLD]
    | signaled a =>
      simp [set_terminal, Shell.emit, Shell.printf, block_SIGCHLD, unblock_SIGCHLD]

theorem builtin_fg_found (s : Shell) (c : Command) (env : Env) (ref : Nat) (J : job)
    (hfound : get_item_bypos s.my_job_list (position_arg c.args) = some (ref, J)) :
    builtin_fg s c env
      = (fg_wait (fg_resume (fg_lookup s c) (position_arg c.args) ref J env)
          J.pgid J.command env, .next_command) := by
  unfold builtin_fg
  simp only []
  have e : (Shell.access (block_SIGCHLD s) (.get_item_bypos (position_arg c.args))).my_job_list
      = s.my_job_list := rfl
  simp only [e, hfound]
  rfl

theorem fg_found_lifecycle (s : Shell) (c : Command) (env : Env) (ref : Nat) (J : job)
    (hfg : c.args.head? = some "fg")
    (hfound : get_item_bypos s.my_job_list (position_arg c.args) = some (ref, J)) :
    s.my_job_list[ref]? = some J
    ∧ (dispatch s c env).1
        = fg_wait (fg_resume (fg_lookup s c) (position_arg c.args) ref J env)
            J.pgid J.command env
    ∧ (fg_resume (fg_lookup s c) (position_arg c.args) ref J env).my_job_list
        = s.my_job_list.eraseIdx ref
    ∧ (∃ pre post, (dispatch s c env).1.trace
          = s.trace ++ pre ++ Event.waitpid J.pgid false env.waitpid :: post
        ∧ Event.job_list (.delete_job ⟨J.pgid, J.command, .FOREGROUND⟩)
            (if env.killpg = -1 then false else true) ∈ pre
        ∧ ∀ g n r, Event.waitpid g n r ∉ pre)
    ∧ (∀ sig, env.waitpid ≠ -1 → env.wait_status = .stopped sig →
        (dispatch s c env).1.my_job_list
          = s.my_job_list.eraseIdx ref ++ [⟨J.pgid, J.command, .STOPPED⟩])
    ∧ ((env.waitpid = -1 ∨ ∀ sig, env.wait_status ≠ .stopped sig) →
        (dispatch s c env).1.my_job_list = s.my_job_list.eraseIdx ref
        ∧ ((pgids s.my_job_list).Nodup → J.pgid ∉ pgids (dispatch s c env).1.my_job_list)) := by
  have hJ := get_item_bypos_some _ _ _ _ hfound
  have hd : (dispatch s c env).1
      = fg_wait (fg_resume (fg_lookup s c) (position_arg c.args) ref J env)
          J.pgid J.command env := by
    rw [dispatch_fg s c env hfg, builtin_fg_found s c env ref J hfound]
  have hl : (fg_resume (fg_lookup s c) (position_arg c.args) ref J env).my_job_list
      = s.my_job_list.eraseIdx ref := by
    rw [fg_resume_list]
    rfl
  refine ⟨hJ, hd, hl, ?_, ?_, ?_⟩
  · obtain ⟨pre, hpre, hdel, hno⟩ :=
      fg_resume_trace (fg_lookup s c) (position_arg c.args) ref J env
    obtain ⟨post, hpost⟩ :=
      fg_wait_trace (fg_resume (fg_lookup s c) (position_arg c.args) ref J env)
        J.pgid J.command env
    refine ⟨[.block_SIGCHLD, .job_list (.get_item_bypos (position_arg c.args)) true] ++ pre,
      post, ?_, ?_, ?_⟩
    · rw [hd, hpost, hpre]
      simp [fg_lookup, Shell.access, Shell.emit, block_SIGCHLD]
    · exact List.mem_append_right _ hdel
    · intro g n r hin
      rcases List.mem_append.mp hin with h | h
      · simp at h
      · exact hno g n r h
  · intro sig hw hst
    rw [hd, fg_wait_list_stopped _ _ _ _ sig hw hst, hl]
  · intro h
    rw [hd, fg_wait_list_other _ _ _ _ h, hl]
    exact ⟨rfl, pgid_not_in_erased _ _ _ hJ⟩

theorem fg_line_position (args : List String) (pos : Int) (h : FgLine args pos) :
    args.head? = some "fg" ∧ position_arg args = pos := by
  rcases h with ⟨ha, hp⟩ | ⟨tok, more, ha, hp⟩
  · rw [ha, hp]
    exact ⟨rfl, rfl⟩
  · rw [ha]
    exact ⟨rfl, by simpa [position_arg] using hp⟩

theorem get_item_bypos_at (l : List job) (pos : Int) (J : job) (hpos : 1 ≤ pos)
    (hJ : l[(pos - 1).toNat]? = some J) :
    get_item_bypos l pos = some ((pos - 1).toNat, J) := by
  unfold get_item_bypos
  rw [if_neg (by omega), hJ]
  rfl

/-- C6. The lifecycle of `fg`: on the line `fg pos` (the bare `fg` being
`fg 1`), when `J` is the job at position `pos` of the list, counted from 1,
it is that job `fg` takes: the job is deleted before the blocking `waitpid`
on its group is called (the deletion is among the actions that precede the
first `waitpid` of the command, and the list at that moment is the old one
without the job at position `pos`), and afterwards the list is decided by
the wait: the old list without `J` followed by a job with the pgid and
command of `J` in state STOPPED when the wait reports a stop, the old list
without `J` otherwise, so that every other job is as it was; with pairwise
distinct pgids no job with the pgid of `J` remains. -/
theorem fg_lifecycle (s : Shell) (c : Command) (env : Env) (pos : Int) (J : job)
    (hline : FgLine c.args pos) (hpos : 1 ≤ pos)
    (hJ : s.my_job_list[(pos - 1).toNat]? = some J) :
    (dispatch s c env).1
        = fg_wait (fg_resume (fg_lookup s c) pos (pos - 1).toNat J env) J.pgid J.command env
    ∧ (fg_resume (fg_lookup s c) pos (pos - 1).toNat J env).my_job_list
        = s.my_job_list.eraseIdx (pos - 1).toNat
    ∧ (∃ pre post, (dispatch s c env).1.trace
          = s.trace ++ pre ++ Event.waitpid J.pgid false env.waitpid :: post
        ∧ Event.job_list (.get_item_bypos pos) true ∈ pre
        ∧ Event.job_list (.delete_job ⟨J.pgid, J.command, .FOREGROUND⟩)
            (if env.killpg = -1 then false else true) ∈ pre
        ∧ ∀ g n r, Event.waitpid g n r ∉ pre)
    ∧ (∀ sig, env.waitpid ≠ -1 → env.wait_status = .stopped sig →
        (dispatch s c env).1.my_job_list
          = s.my_job_list.eraseIdx (pos - 1).toNat ++ [⟨J.pgid, J.command, .STOPPED⟩])
    ∧ ((env.waitpid = -1 ∨ ∀ sig, env.wait_status ≠ .stopped sig) →
        (dispatch s c env).1.my_job_list = s.my_job_list.eraseIdx (pos - 1).toNat
        ∧ ((pgids s.my_job_list).Nodup → J.pgid ∉ pgids (dispatch s c env).1.my_job_list)) := by
  obtain ⟨hfg, hp⟩ := fg_line_position c.args pos hline
  have hfound : get_item_bypos s.my_job_list (position_arg c.args)
      = some ((pos - 1).toNat, J) := by
    rw [hp]
    exact get_item_bypos_at _ _ _ hpos hJ
  obtain ⟨_, h1, h2, h3, h4, h5⟩ :=
    fg_found_lifecycle s c env (pos - 1).toNat J hfg hfound
  rw [hp] at h1 h2
  refine ⟨h1, h2, ?_, h4, h5⟩
  obtain ⟨pre, hpre, hdel, hno⟩ := fg_resume_trace (fg_lookup s c) pos (pos - 1).toNat J env
  obtain ⟨post, hpost⟩ :=
    fg_wait_trace (fg_resume (fg_lookup s c) pos (pos - 1).toNat J env) J.pgid J.command env
  refine ⟨[.block_SIGCHLD, .job_list (.get_item_bypos pos) true] ++ pre, post, ?_, ?_, ?_, ?_⟩
  · rw [h1, hpost, hpre]
    simp [fg_lookup, Shell.access, Shell.emit, block_SIGCHLD, hp]
  · simp
  · exact List.mem_append_right _ hdel
  · intro g n r hin
    rcases List.mem_append.mp hin with h | h
    · simp at h
    · exact hno g n r h

/-- Witness of C6: `fg 2` on a list of three jobs takes the second one, which
is stopped again during the wait and goes behind the other two. -/
theorem fg_lifecycle_witness :
    (FgLine ["fg", "2"] 2 ∧ (1 : Int) ≤ 2
      ∧ [(⟨100, "sleep", .BACKGROUND⟩ : job), ⟨101, "vi", .STOPPED⟩,
          ⟨102, "top", .BACKGROUND⟩][((2 : Int) - 1).toNat]? = some ⟨101, "vi", .STOPPED⟩)
    ∧ (dispatch
          ⟨1, [⟨100, "sleep", .BACKGROUND⟩, ⟨101, "vi", .STOPPED⟩, ⟨102, "top", .BACKGROUND⟩],
            false, 1, []⟩
          ⟨["fg", "2"], false, none, none, none⟩
          { Env.sample with waitpid := 101, wait_status := .stopped 20 }).1.my_job_list
        = [⟨100, "sleep", .BACKGROUND⟩, ⟨102, "top", .BACKGROUND⟩, ⟨101, "vi", .STOPPED⟩] :=
  ⟨⟨Or.inr ⟨"2", [], rfl, by decide⟩, by decide, rfl⟩,
    ((fg_lifecycle
        ⟨1, [⟨100, "sleep", .BACKGROUND⟩, ⟨101, "vi", .STOPPED⟩, ⟨102, "top", .BACKGROUND⟩],
          false, 1, []⟩
        ⟨["fg", "2"], false, none, none, none⟩
        { Env.sample with waitpid := 101, wait_status := .stopped 20 } 2 ⟨101, "vi", .STOPPED⟩
        (Or.inr ⟨"2", [], rfl, by decide⟩) (by decide) rfl).2.2.2.1 20 (by decide) rfl).trans
      rfl⟩

theorem fg_not_found (s : Shell) (c : Command) (env : Env)
    (hfg : c.args.head? = some "fg")
    (hnone : get_item_bypos s.my_job_list (position_arg c.args) = none) :
    dispatch s c env
      = ({ s with
            sigchld_blocked := false,
            trace := s.trace ++
              [.block_SIGCHLD, .job_list (.get_item_bypos (position_arg c.args)) true,
               .printf "There is no job in position %d\n" [.int (position_arg c.args)],
               .unblock_SIGCHLD] },
          .next_command) := by
  rw [dispatch_fg s c env hfg]
  unfold builtin_fg
  simp only []
  have e : (Shell.access (block_SIGCHLD s) (.get_item_bypos (position_arg c.args))).my_job_list
      = s.my_job_list := rfl
  simp only [e, hnone]
  simp [Shell.access, Shell.emit, Shell.printf, block_SIGCHLD, unblock_SIGCHLD]

/-- C7. `fg` on a missing position: on the line `fg pos` (the bare `fg` being
`fg 1`), when the lookup of position `pos` finds no job, `fg` blocks
`SIGCHLD`, looks the position up, prints that there is no job in position
`pos` and unblocks `SIGCHLD`, and does nothing else: the job list and the
terminal are as before, no signal is sent, and `SIGCHLD` ends unblocked. -/
theorem fg_missing_position (s : Shell) (c : Command) (env : Env) (pos : Int)
    (hline : FgLine c.args pos) (hnone : get_item_bypos s.my_job_list pos = none) :
    dispatch s c env
      = ({ s with
            sigchld_blocked := false,
            trace := s.trace ++
              [.block_SIGCHLD, .job_list (.get_item_bypos pos) true,
               .printf "There is no job in position %d\n" [.int pos],
               .unblock_SIGCHLD] },
          .next_command) := by
  obtain ⟨hfg, hp⟩ := fg_line_position c.args pos hline
  have h := fg_not_found s c env hfg (by rw [hp]; exact hnone)
  rw [hp] at h
  exact h

/-- Witness of C7: `fg 2` on a list of one job. -/
theorem fg_missing_position_witness :
    (FgLine ["fg", "2"] 2 ∧ get_item_bypos [⟨100, "sleep", .STOPPED⟩] 2 = none)
    ∧ dispatch ⟨1, [⟨100, "sleep", .STOPPED⟩], false, 1, []⟩
        ⟨["fg", "2"], false, none, none, none⟩ Env.sample
      = (⟨1, [⟨100, "sleep", .STOPPED⟩], false, 1,
          [.block_SIGCHLD, .job_list (.get_item_bypos 2) true,
           .printf "There is no job in position %d\n" [.int 2], .unblock_SIGCHLD]⟩,
          .next_command) :=
  ⟨⟨Or.inr ⟨"2", [], rfl, by decide⟩, rfl⟩,
    fg_missing_position ⟨1, [⟨100, "sleep", .STOPPED⟩], false, 1, []⟩
      ⟨["fg", "2"], false, none, none, none⟩ Env.sample 2
      (Or.inr ⟨"2", [], rfl, by decide⟩) rfl⟩

theorem dispatch_deljob (s : Shell) (c : Command) (env : Env)
    (hname : c.args.head? = some "deljob") :
    dispatch s c env = builtin_deljob s := by
  simp [dispatch, hname]

/-- C8. The policy of `deljob`: on the empty list it prints "No current job"
and leaves the list empty; when the first job is STOPPED it prints the
refusal and leaves the list as it is; when the first job is BACKGROUND it
prints the deletion line and deletes exactly that job; and the list changes
if and only if there is a first job and its state is BACKGROUND. In every
case the access is made with `SIGCHLD` blocked, which ends unblocked. -/
theorem deljob_policy (s : Shell) (c : Command) (env : Env)
    (hname : c.args.head? = some "deljob") :
    (s.my_job_list = [] →
      dispatch s c env
        = ({ s with
              sigchld_blocked := false,
              trace := s.trace ++
                [.block_SIGCHLD, .job_list (.get_item_bypos 1) true,
                 .printf "No current job\n" [], .unblock_SIGCHLD] }, .next_command))
    ∧ (∀ j rest, s.my_job_list = j :: rest → j.state = .STOPPED →
      dispatch s c env
        = ({ s with
              sigchld_blocked := false,
              trace := s.trace ++
                [.block_SIGCHLD, .job_list (.get_item_bypos 1) true,
                 .printf "Cannot delete suspended background jobs\n" [],
                 .unblock_SIGCHLD] }, .next_command))
    ∧ (∀ j rest, s.my_job_list = j :: rest → j.state = .BACKGROUND →
      dispatch s c env
        = ({ s with
              my_job_list := rest,
              sigchld_blocked := false,
              trace := s.trace ++
                [.block_SIGCHLD, .job_list (.get_item_bypos 1) true,
                 .printf "Deleting current job from jobs list: PID=%d command=%s\n"
                   [.int j.pgid, .str j.command],
                 .job_list (.delete_job j) true, .unblock_SIGCHLD] }, .next_command))
    ∧ ((dispatch s c env).1.my_job_list ≠ s.my_job_list
        ↔ ∃ j rest, s.my_job_list = j :: rest ∧ j.state = .BACKGROUND) := by
  rw [dispatch_deljob s c env hname]
  have e : (Shell.access (block_SIGCHLD s) (.get_item_bypos 1)).my_job_list
      = s.my_job_list := rfl
  refine ⟨?_, ?_, ?_, ?_⟩
  · intro h
    unfold builtin_deljob
    simp only [e, h]
    simp [get_item_bypos, Shell.access, Shell.emit, Shell.printf, block_SIGCHLD,
      unblock_SIGCHLD, h]
  · intro j rest h hst
    unfold builtin_deljob
    simp only [e, h]
    simp [get_item_bypos, Shell.access, Shell.emit, Shell.printf, block_SIGCHLD,
      unblock_SIGCHLD, h, hst]
  · intro j rest h hst
    unfold builtin_deljob
    simp only [e, h]
    simp [get_item_bypos, Shell.access, Shell.emit, Shell.printf, block_SIGCHLD,
      unblock_SIGCHLD, Shell.delete_job, delete_job, h, hst]
  · unfold builtin_deljob
    simp only [e]
    cases hl : s.my_job_list with
    | nil =>
      simp [get_item_bypos, Shell.access, Shell.emit, Shell.printf, block_SIGCHLD,
        unblock_SIGCHLD, hl]
    | cons j rest =>
      cases hst : j.state <;>
        simp [get_item_bypos, Shell.access, Shell.emit, Shell.printf, block_SIGCHLD,
          unblock_SIGCHLD, Shell.delete_job, delete_job, hl, hst]

/-- Witness of C8: `deljob` when the first job is stopped. -/
theorem deljob_policy_witness :
    ["deljob"].head? = some "deljob"
    ∧ ((dispatch { Shell.init 1 with my_job_list := [⟨100, "sleep", .STOPPED⟩] }
          ⟨["deljob"], false, none, none, none⟩ Env.sample).1.my_job_list
        ≠ [⟨100, "sleep", .STOPPED⟩]
      ↔ ∃ j rest, [(⟨100, "sleep", .STOPPED⟩ : job)] = j :: rest ∧ j.state = .BACKGROUND) :=
  ⟨rfl,
    (deljob_policy { Shell.init 1 with my_job_list := [⟨100, "sleep", .STOPPED⟩] }
      ⟨["deljob"], false, none, none, none⟩ Env.sample rfl).2.2.2⟩

/-! ## Unique process-group ids -/

theorem sigchld_handler_pgids (s : Shell) (waitpid : Nat → Int × wstatus) :
    List.Sublist (pgids (sigchld_handler s waitpid).my_job_list) (pgids s.my_job_list) := by
  obtain ⟨_, _, h3⟩ := handler_loop_spec waitpid s.my_job_list 0
  have := h3.map Prod.fst
  simpa [pgids, sigchld_handler, List.map_map, Function.comp_def] using this

theorem launch_parent_list (s : Shell) (name : String) (background : Bool) (pid_fork : Int)
    (env : Env) :
    (launch_parent s name background pid_fork env).my_job_list = s.my_job_list
      ∨ ∃ j : job, j.pgid = pid_fork
          ∧ (launch_parent s name background pid_fork env).my_job_list = s.my_job_list ++ [j] := by
  unfold launch_parent
  simp only []
  split_ifs with h1 h2 h3
  · split
    · right
      exact ⟨⟨env.waitpid, name, .STOPPED⟩, h2, by simp [set_terminal, new_process_group, Shell.emit, Shell.printf,
        Shell.add_job, Shell.access, add_job, new_job]⟩
    · left
      simp [set_terminal, new_process_group, Shell.emit, Shell.printf]
  · left
    simp [set_terminal, new_process_group, Shell.emit, Shell.perror]
  · left
    simp [set_terminal, new_process_group, Shell.emit]
  · right
    exact ⟨⟨pid_fork, name, .BACKGROUND⟩, rfl, by simp [new_process_group, Shell.emit, Shell.printf, Shell.add_job,
      Shell.access, add_job, new_job, block_SIGCHLD, unblock_SIGCHLD]⟩

theorem fico_parent_list (s : Shell) (background : Bool) (pid_fork : Int) (env : Env) :
    (fico_parent s background pid_fork env).my_job_list = s.my_job_list
      ∨ ∃ j : job, j.pgid = pid_fork
          ∧ (fico_parent s background pid_fork env).my_job_list = s.my_job_list ++ [j] := by
  unfold fico_parent
  simp only []
  split_ifs with h1 h2 h3
  · split
    · right
      exact ⟨⟨env.waitpid, "fico", .STOPPED⟩, h2, by simp [set_terminal, new_process_group, Shell.emit, Shell.printf,
        Shell.add_job, Shell.access, add_job, new_job, block_SIGCHLD, unblock_SIGCHLD]⟩
    · left
      simp [set_terminal, new_process_group, Shell.emit, Shell.printf]
  · left
    simp [set_terminal, new_process_group, Shell.emit, Shell.perror]
  · left
    simp [set_terminal, new_process_group, Shell.emit]
  · right
    exact ⟨⟨pid_fork, "fico", .BACKGROUND⟩, rfl, by simp [new_process_group, Shell.emit, Shell.printf, Shell.add_job,
      Shell.access, add_job, new_job, block_SIGCHLD, unblock_SIGCHLD]⟩

theorem exec_or_fail_list (s : Shell) (file : Option String) (argv : List String) (env : Env) :
    (exec_or_fail s file argv env).1.my_job_list = s.my_job_list := by
  unfold exec_or_fail
  simp only []
  split_ifs <;> simp [Shell.emit, Shell.printf]

theorem redirect_in_list (s : Shell) (file_in : Option String) (env : Env) :
    (redirect_in s file_in env).1.my_job_list = s.my_job_list := by
  unfold redirect_in
  cases file_in with
  | none => rfl
  | some f =>
    simp only []
    split_ifs <;> simp [Shell.emit, Shell.perror]

theorem redirect_out_list (s : Shell) (file_out : Option String) (flags : OpenFlags)
    (env : Env) :
    (redirect_out s file_out flags env).1.my_job_list = s.my_job_list := by
  unfold redirect_out
  cases file_out with
  | none => rfl
  | some f =>
    simp only []
    split_ifs <;> simp [Shell.emit, Shell.perror]

theorem close_redirections_list (s : Shell) (c : Command) (a b d : Int) :
    (close_redirections s c a b d).my_job_list = s.my_job_list := by
  unfold close_redirections
  simp only []
  split_ifs <;> simp [Shell.emit]

theorem child_redirections_list (s : Shell) (c : Command) (env : Env) :
    (child_redirections s c env).1.my_job_list = s.my_job_list := by
  unfold child_redirections
  simp only []
  split_ifs <;>
    simp [redirect_in_list, redirect_out_list, close_redirections_list]
theorem nodup_add (l : List job) (j : job) (hnd : (pgids l).Nodup) (hj : j.pgid ∉ pgids l) :
    (pgids (l ++ [j])).Nodup := by
  simp only [pgids, List.map_append, List.map_cons, List.map_nil]
  rw [List.nodup_append]
  refine ⟨hnd, by simp, ?_⟩
  intro a ha hb
  simp at hb
  subst hb
  exact hj ha

theorem launch_child_list (s : Shell) (name : String) (c : Command) (env : Env) :
    (launch_child s name c env).1.my_job_list = s.my_job_list := by
  unfold launch_child
  simp only []
  split_ifs <;>
    simp [exec_or_fail_list, child_redirections_list, restore_terminal_signals, set_terminal,
      Shell.emit]

theorem launch_list (s : Shell) (name : String) (c : Command) (env : Env) :
    (launch s name c env).1.my_job_list = s.my_job_list
      ∨ (0 < env.fork 0 ∧ ∃ j : job, j.pgid = env.fork 0
          ∧ (launch s name c env).1.my_job_list = s.my_job_list ++ [j]) := by
  unfold launch
  simp only []
  split_ifs with h1 h2
  · rcases launch_parent_list (s.emit (.fork (env.fork 0))) name c.background (env.fork 0) env
      with h | ⟨j, hj, h⟩
    · left; exact h
    · right; exact ⟨h1, j, hj, h⟩
  · left
    rw [launch_child_list]
    rfl
  · left
    simp [Shell.perror, Shell.emit]

theorem fico_child_list (s : Shell) (c : Command) (env : Env) :
    (fico_child s c env).1.my_job_list = s.my_job_list := by
  unfold fico_child
  simp only []
  split_ifs <;> simp [restore_terminal_signals, set_terminal, Shell.emit]

theorem builtin_fico_list (s : Shell) (c : Command) (env : Env) :
    (builtin_fico s c env).1.my_job_list = s.my_job_list
      ∨ (0 < env.fork 0 ∧ ∃ j : job, j.pgid = env.fork 0
          ∧ (builtin_fico s c env).1.my_job_list = s.my_job_list ++ [j]) := by
  unfold builtin_fico
  simp only []
  split_ifs with h1 h2
  · rcases fico_parent_list (s.emit (.fork (env.fork 0))) c.background (env.fork 0) env
      with h | ⟨j, hj, h⟩
    · left; exact h
    · right; exact ⟨h1, j, hj, h⟩
  · left
    rw [fico_child_list]
    rfl
  · left
    simp [Shell.perror, Shell.emit]

theorem mask_scan_list (l : List String) :
    ∀ (s : Shell) (acc : List Int) (e : Bool) (r : Shell × List Int × Bool × List String),
      mask_scan l s acc e = some r → r.1.my_job_list = s.my_job_list := by
  induction l with
  | nil =>
    intro s acc e r h
    simp only [mask_scan, Option.some.injEq] at h
    rw [← h]
  | cons a l ih =>
    intro s acc e r h
    unfold mask_scan at h
    split_ifs at h
    · simp only [Option.some.injEq] at h
      rw [← h]
    · rw [ih _ _ _ _ h]
      rfl
    · exact ih _ _ _ _ h

theorem foldl_block_signal_list (signals : List Int) :
    ∀ s : Shell, (signals.foldl (fun s sig => s.emit (.block_signal sig)) s).my_job_list
      = s.my_job_list := by
  induction signals with
  | nil => intro s; rfl
  | cons a l ih => intro s; rw [List.foldl_cons, ih]; rfl

theorem emit_list (s : Shell) (e : Event) : (s.emit e).my_job_list = s.my_job_list := rfl

theorem set_terminal_list (s : Shell) (pgid : Int) :
    (set_terminal s pgid).my_job_list = s.my_job_list := rfl

theorem restore_terminal_signals_list (s : Shell) :
    (restore_terminal_signals s).my_job_list = s.my_job_list := rfl

theorem mask_child_list (s : Shell) (signals : List Int) (name : String)
    (new_args : List String) (background : Bool) (env : Env) :
    (mask_child s signals name new_args background env).1.my_job_list = s.my_job_list := by
  unfold mask_child
  simp only []
  rw [exec_or_fail_list, restore_terminal_signals_list]
  split_ifs <;> simp only [set_terminal_list, foldl_block_signal_list]

theorem builtin_mask_list (s : Shell) (c : Command) (env : Env) :
    (builtin_mask s c env).1.my_job_list = s.my_job_list
      ∨ (0 < env.fork 0 ∧ ∃ j : job, j.pgid = env.fork 0
          ∧ (builtin_mask s c env).1.my_job_list = s.my_job_list ++ [j]) := by
  unfold builtin_mask
  cases hscan : mask_scan (c.args.drop 1) s [] false with
  | none => left; rfl
  | some r =>
    have hs := mask_scan_list (c.args.drop 1) s [] false r hscan
    obtain ⟨s1, signals, syntax_error, from_i⟩ := r
    simp only [] at hs ⊢
    by_cases he : syntax_error = false
    · simp only [he, if_true]
      rcases from_i with _ | ⟨dash, _ | ⟨name, more⟩⟩
      · left; exact hs
      · left; exact hs
      · simp only []
        by_cases h1 : env.fork 0 > 0
        · rw [if_pos h1]
          rcases launch_parent_list (s1.emit (.fork (env.fork 0))) name c.background
            (env.fork 0) env with h | ⟨j, hj, h⟩
          · left; rw [h]; exact hs
          · right; exact ⟨h1, j, hj, by rw [h, emit_list, hs]⟩
        · left
          simp only [h1, if_false]
          by_cases h2 : env.fork 0 = 0
          · simp only [h2, if_true]
            rw [mask_child_list]
            exact hs
          · simp only [h2, if_false]
            exact hs
    · left
      simp only [he, if_false]
      exact hs

theorem bgteam_child_list (s : Shell) (args : List String) (env : Env) :
    (bgteam_child s args env).1.my_job_list = s.my_job_list := by
  unfold bgteam_child
  simp only []
  split_ifs <;> simp [restore_terminal_signals, Shell.emit, Shell.printf]

theorem bgteam_loop_nodup (args : List String) (cmd : String) (env : Env) :
    ∀ (k i : Nat) (s : Shell), (pgids s.my_job_list).Nodup →
      (∀ n, i ≤ n → n < i + k → 0 < env.fork n →
        env.fork n ∉ pgids s.my_job_list ∧ ∀ j, i ≤ j → j < n → env.fork j ≠ env.fork n) →
      (pgids (bgteam_loop args cmd env k i s).1.my_job_list).Nodup := by
  intro k
  induction k with
  | zero => intro i s hnd _; exact hnd
  | succ k ih =>
    intro i s hnd hfresh
    unfold bgteam_loop
    simp only []
    by_cases h1 : env.fork i > 0
    · rw [if_pos h1]
      obtain ⟨hi, _⟩ := hfresh i (Nat.le_refl _) (by omega) h1
      apply ih
      · exact nodup_add _ _ hnd hi
      · intro n hn1 hn2 hpos
        obtain ⟨ha, hb⟩ := hfresh n (by omega) (by omega) hpos
        refine ⟨?_, fun j hj1 hj2 => hb j (by omega) hj2⟩
        intro hin
        have hin2 : env.fork n ∈ pgids (s.my_job_list ++ [new_job (env.fork i) cmd .BACKGROUND]) :=
          hin
        simp only [pgids, List.map_append, List.mem_append, List.map_cons, List.map_nil,
          List.mem_singleton, new_job] at hin2
        rcases hin2 with h | h
        · exact ha h
        · exact hb i (Nat.le_refl _) (by omega) h.symm
    · rw [if_neg h1]
      by_cases h2 : env.fork i = 0
      · rw [if_pos h2, bgteam_child_list]
        exact hnd
      · rw [if_neg h2]
        apply ih
        · exact hnd
        · intro n hn1 hn2 hpos
          obtain ⟨ha, hb⟩ := hfresh n (by omega) (by omega) hpos
          exact ⟨ha, fun j hj1 hj2 => hb j (by omega) hj2⟩

theorem dispatch_bgteam (s : Shell) (c : Command) (env : Env)
    (hname : c.args.head? = some "bgteam") :
    dispatch s c env = builtin_bgteam s c env := by
  simp [dispatch, hname]

theorem dispatch_background (s : Shell) (c : Command) (env : Env) (name : String)
    (hname : c.args.head? = some name)
    (hgen : name ∉ ["exit", "cd", "jobs", "fg", "bg", "currjob", "deljob", "zjobs", "bgteam"]) :
    dispatch s c env
      = if name = "fico" then builtin_fico s c env
        else if name = "mask" then builtin_mask s c env
        else launch s name c env := by
  simp only [List.mem_cons, List.mem_singleton, not_or, List.not_mem_nil,
    not_false_eq_true, and_true] at hgen
  obtain ⟨h1, h2, h3, h4, h5, h6, h7, h8, h9⟩ := hgen
  simp [dispatch, hname, h1, h2, h3, h4, h5, h6, h7, h8, h9]

theorem background_launch_nodup (s : Shell) (c : Command) (env : Env)
    (hnd : (pgids s.my_job_list).Nodup) (hb : BackgroundLaunch c) (hf : FreshPids s c env) :
    (pgids (dispatch s c env).1.my_job_list).Nodup := by
  rcases hb with hbg | ⟨_, name, hname, hgen⟩
  · rw [dispatch_bgteam s c env hbg]
    unfold builtin_bgteam
    cases h1 : c.args[1]? with
    | none => exact hnd
    | some count =>
      cases h2 : c.args[2]? with
      | none => exact hnd
      | some cmd =>
        simp only []
        split_ifs with hpos
        · apply bgteam_loop_nodup _ _ _ _ _ _ hnd
          intro n _ hn hp
          have hcalls : fork_calls c = (atoi count).toNat := by
            simp [fork_calls, hbg, h1]
          obtain ⟨ha, hb⟩ := hf n (by rw [hcalls]; omega) hp
          exact ⟨ha, fun j _ hj => hb j hj⟩
        · exact hnd
  · have hne : name ≠ "bgteam" := fun h => hgen (by simp [h])
    have hcalls : fork_calls c = 1 := by
      simp [fork_calls, hname, hne]
    have hfresh : 0 < env.fork 0 → env.fork 0 ∉ pgids s.my_job_list := fun hp =>
      (hf 0 (by rw [hcalls]; omega) hp).1
    rw [dispatch_background s c env name hname hgen]
    have key : ∀ l : List job,
        (l = s.my_job_list ∨ (0 < env.fork 0 ∧ ∃ j : job, j.pgid = env.fork 0
          ∧ l = s.my_job_list ++ [j])) → (pgids l).Nodup := by
      intro l hl
      rcases hl with h | ⟨hp, j, hj, h⟩
      · rw [h]; exact hnd
      · rw [h]
        exact nodup_add _ _ hnd (by rw [hj]; exact hfresh hp)
    split_ifs
    · exact key _ (builtin_fico_list s c env)
    · exact key _ (builtin_mask_list s c env)
    · exact key _ (launch_list s name c env)

/-- C9. Unique pgids: in every shell reached from the initial one by
background launches (`cmd &`, `fico &`, `mask ... &`, `bgteam`, the latter
also turn by turn) and invocations of the `SIGCHLD` handler, in any order,
where every `fork` that returns a child returns a pid different from the
pgid of every job then in the list, no two jobs of the list have the same
pgid. -/
theorem unique_pgids (pid : Int) (s : Shell) (h : Reachable pid s) :
    (pgids s.my_job_list).Nodup := by
  induction h with
  | init => simp [Shell.init, pgids]
  | launch s c env _ hb hf ih => exact background_launch_nodup s c env ih hb hf
  | bgteam_turn s args cmd env i _ hf ih =>
    apply bgteam_loop_nodup args cmd env 1 i s ih
    intro n hn1 hn2 hp
    have hni : n = i := by omega
    subst hni
    exact ⟨hf hp, fun j hj1 hj2 => absurd hj2 (by omega)⟩
  | handler s waitpid _ ih => exact ih.sublist (sigchld_handler_pgids s waitpid)
theorem sample_bgteam_reachable :
    Reachable 1
      (sigchld_handler
        (dispatch (Shell.init 1) ⟨["bgteam", "2", "sleep", "5"], false, none, none, none⟩
          Env.sample).1
        (fun _ => (0, .exited 0))) := by
  apply Reachable.handler
  refine Reachable.launch (Shell.init 1)
    ⟨["bgteam", "2", "sleep", "5"], false, none, none, none⟩ Env.sample Reachable.init
    (Or.inl rfl) ?_
  intro i hi hp
  have h2 : fork_calls ⟨["bgteam", "2", "sleep", "5"], false, none, none, none⟩ = 2 := by
    decide
  rw [h2] at hi
  refine ⟨by simp [Shell.init, pgids], ?_⟩
  intro j hj
  simp only [Env.sample]
  omega

/-- Witness of C9: `bgteam 2 sleep 5` from the initial shell, then one
invocation of the handler. -/
theorem unique_pgids_witness :
    Reachable 1
      (sigchld_handler
        (dispatch (Shell.init 1) ⟨["bgteam", "2", "sleep", "5"], false, none, none, none⟩
          Env.sample).1
        (fun _ => (0, .exited 0)))
    ∧ (pgids (sigchld_handler
        (dispatch (Shell.init 1) ⟨["bgteam", "2", "sleep", "5"], false, none, none, none⟩
          Env.sample).1
        (fun _ => (0, .exited 0))).my_job_list).Nodup :=
  ⟨sample_bgteam_reachable, unique_pgids 1 _ sample_bgteam_reachable⟩

/-! ## The built-in `bgteam` -/

theorem bgteam_copy_spec (l : List String) :
    ∀ acc : Args, l ≠ [] → bgteam_copy l acc = acc ++ ((l.drop 1).map some ++ [none]) := by
  induction l with
  | nil => intro acc h; exact absurd rfl h
  | cons t rest ih =>
    intro acc _
    cases rest with
    | nil => simp [bgteam_copy]
    | cons r rs =>
      rw [bgteam_copy, ih (acc ++ [(r :: rs).head?]) (by simp)]
      simp

theorem bgteam_loop_parent (args : List String) (cmd : String) (env : Env) :
    ∀ (k i : Nat) (s : Shell), (∀ j, i ≤ j → j < i + k → 0 < env.fork j) →
      bgteam_loop args cmd env k i s
        = ({ s with
              my_job_list := s.my_job_list ++
                (List.range' i k).map (fun j => ⟨env.fork j, cmd, .BACKGROUND⟩),
              sigchld_blocked := if k = 0 then s.sigchld_blocked else false,
              trace := s.trace ++
                (List.range' i k).flatMap (fun j => bgteam_parent_events cmd (env.fork j)) },
            .next_command) := by
  intro k
  induction k with
  | zero => intro i s _; simp [bgteam_loop]
  | succ k ih =>
    intro i s hf
    have h1 : env.fork i > 0 := hf i (Nat.le_refl _) (by omega)
    unfold bgteam_loop
    simp only []
    rw [if_pos h1, ih (i + 1) _ (fun j hj1 hj2 => hf j (by omega) (by omega))]
    simp [List.range'_succ, bgteam_parent_events, new_process_group, Shell.emit, Shell.printf,
      Shell.add_job, Shell.access, add_job, new_job, block_SIGCHLD, unblock_SIGCHLD]

theorem bgteam_loop_child (args : List String) (cmd : String) (env : Env) :
    ∀ (k i : Nat) (s : Shell) (m : Nat), m < k → (∀ j, i ≤ j → j < i + m → 0 < env.fork j) →
      env.fork (i + m) = 0 →
      bgteam_loop args cmd env k i s
        = bgteam_child
            ({ s with
                my_job_list := s.my_job_list ++
                  (List.range' i m).map (fun j => ⟨env.fork j, cmd, .BACKGROUND⟩),
                sigchld_blocked := if m = 0 then s.sigchld_blocked else false,
                trace := s.trace ++
                  (List.range' i m).flatMap (fun j => bgteam_parent_events cmd (env.fork j)) ++
                  [.fork 0] })
            args env := by
  intro k
  induction k with
  | zero => intro i s m hm; omega
  | succ k ih =>
    intro i s m hm hf h0
    cases m with
    | zero =>
      have h1 : ¬ env.fork i > 0 := by
        simp only [Nat.add_zero] at h0
        omega
      unfold bgteam_loop
      simp only []
      rw [if_neg h1, if_pos (by simpa using h0)]
      simp only [Nat.add_zero] at h0
      simp [Shell.emit, h0]
    | succ m =>
      have h1 : env.fork i > 0 := hf i (Nat.le_refl _) (by omega)
      unfold bgteam_loop
      simp only []
      rw [if_pos h1, ih (i + 1) _ m (by omega) (fun j hj1 hj2 => hf j (by omega) (by omega))
        (by rw [← h0]; congr 1; omega)]
      simp [List.range'_succ, bgteam_parent_events, new_process_group, Shell.emit, Shell.printf,
        Shell.add_job, Shell.access, add_job, new_job, block_SIGCHLD, unblock_SIGCHLD]
theorem bgteam_parent_events_forks (cmd : String) (f : Nat → Int) (l : List Nat) :
    ((l.flatMap (fun j => bgteam_parent_events cmd (f j))).filter is_fork).length
      = l.length := by
  induction l with
  | nil => rfl
  | cons a l ih =>
    rw [List.flatMap_cons, List.filter_append, List.length_append, ih]
    simp [bgteam_parent_events, is_fork, List.filter]
    omega

theorem bgteam_parent_events_quiet (cmd : String) (f : Nat → Int) (l : List Nat) :
    (∀ g n r, Event.waitpid g n r ∉ l.flatMap (fun j => bgteam_parent_events cmd (f j)))
      ∧ ∀ g, Event.set_terminal g ∉ l.flatMap (fun j => bgteam_parent_events cmd (f j)) := by
  constructor
  · intro g n r h
    rw [List.mem_flatMap] at h
    obtain ⟨j, _, hj⟩ := h
    simp [bgteam_parent_events] at hj
  · intro g h
    rw [List.mem_flatMap] at h
    obtain ⟨j, _, hj⟩ := h
    simp [bgteam_parent_events] at hj

/-- C10. The spawn count of `bgteam`: on `bgteam <count> <cmd> [args]` with
`atoi(count) = n > 0`, when the `n` calls of `fork` return children, the
shell performs, `n` times over, `fork`, `new_process_group`, the report line
and the insertion of a BACKGROUND job with the child's pid and the command
`cmd` under blocked `SIGCHLD`, and nothing else: exactly `n` calls of `fork`,
no `waitpid`, no `set_terminal`, the terminal as before, and the `n` new jobs
behind the old ones. The child created by the `m`-th call (`m < n`) calls
`execvp` on the vector without its first two tokens. -/
theorem bgteam_spawn_count (s : Shell) (c : Command) (env : Env) (count cmd : String)
    (more : List String) (hargs : c.args = "bgteam" :: count :: cmd :: more)
    (hpos : 0 < atoi count) (hforks : ∀ i, i < (atoi count).toNat → 0 < env.fork i) :
    dispatch s c env
      = ({ s with
            my_job_list := s.my_job_list ++
              (List.range (atoi count).toNat).map (fun i => ⟨env.fork i, cmd, .BACKGROUND⟩),
            sigchld_blocked := false,
            trace := s.trace ++
              (List.range (atoi count).toNat).flatMap
                (fun i => bgteam_parent_events cmd (env.fork i)) },
          .next_command)
    ∧ (((List.range (atoi count).toNat).flatMap
          (fun i => bgteam_parent_events cmd (env.fork i))).filter is_fork).length
        = (atoi count).toNat
    ∧ (∀ g n r, Event.waitpid g n r ∉
        (List.range (atoi count).toNat).flatMap
          (fun i => bgteam_parent_events cmd (env.fork i)))
    ∧ (∀ g, Event.set_terminal g ∉
        (List.range (atoi count).toNat).flatMap
          (fun i => bgteam_parent_events cmd (env.fork i)))
    ∧ ∀ (env2 : Env) (m : Nat), m < (atoi count).toNat →
        (∀ j, j < m → 0 < env2.fork j) → env2.fork m = 0 →
        (dispatch s c env2).2
            = (if env2.execvp_ok then .replaced (some cmd) (c.args.drop 2) else .exited 1)
          ∧ (dispatch s c env2).1.trace
            = s.trace ++
                (List.range m).flatMap (fun i => bgteam_parent_events cmd (env2.fork i)) ++
                [.fork 0, .restore_terminal_signals, .execvp (some cmd) (c.args.drop 2)] ++
                (if env2.execvp_ok then []
                 else [.printf "Error, command not found: %s\n" [.str cmd], .exit 1]) := by
  have hd : ∀ e : Env, dispatch s c e
      = bgteam_loop c.args cmd e (atoi count).toNat 0 s := by
    intro e
    rw [dispatch_bgteam s c e (by rw [hargs]; rfl)]
    unfold builtin_bgteam
    simp [hargs, hpos]
  have hn : (atoi count).toNat ≠ 0 := by omega
  refine ⟨?_, ?_, (bgteam_parent_events_quiet cmd env.fork _).1,
    (bgteam_parent_events_quiet cmd env.fork _).2, ?_⟩
  · rw [hd, bgteam_loop_parent c.args cmd env _ 0 s
      (fun j _ hj => hforks j (by omega))]
    simp [hn, List.range_eq_range']
  · rw [bgteam_parent_events_forks, List.length_range]
  · intro env2 m hm hf h0
    rw [hd, bgteam_loop_child c.args cmd env2 _ 0 s m hm
      (fun j _ hj => hf j (by omega)) (by simpa using h0)]
    have hcopy : bgteam_copy (c.args.drop 1) [] = (cmd :: more).map some ++ none :: [] := by
      rw [hargs]
      simp only [List.drop_succ_cons, List.drop_zero]
      rw [bgteam_copy_spec _ _ (by simp)]
      simp
    have hargv : argv (bgteam_copy (c.args.drop 1) []) = cmd :: more := by
      rw [hcopy]
      exact argv_of_tokens _ _
    have hdrop : c.args.drop 2 = cmd :: more := by
      rw [hargs]
      rfl
    unfold bgteam_child
    simp only [hargv, hdrop, List.head?_cons]
    split_ifs <;>
      simp [restore_terminal_signals, Shell.emit, Shell.printf, List.range_eq_range']
/-- Witness of C10: `bgteam 3 sleep 5` from the initial shell, with `fork`
returning 100, 101, 102. -/
theorem bgteam_spawn_count_witness :
    (0 < atoi "3" ∧ ∀ i, i < (atoi "3").toNat → 0 < Env.sample.fork i)
    ∧ (dispatch (Shell.init 1) ⟨["bgteam", "3", "sleep", "5"], false, none, none, none⟩
        Env.sample).1.my_job_list
      = [⟨100, "sleep", .BACKGROUND⟩, ⟨101, "sleep", .BACKGROUND⟩, ⟨102, "sleep", .BACKGROUND⟩] :=
  ⟨⟨by decide, fun i _ => by simp only [Env.sample]; omega⟩,
    (congrArg (fun r => r.1.my_job_list)
      (bgteam_spawn_count (Shell.init 1)
        ⟨["bgteam", "3", "sleep", "5"], false, none, none, none⟩ Env.sample "3" "sleep" ["5"]
        rfl (by decide) (fun i _ => by simp only [Env.sample]; omega)).1).trans (by rfl)⟩

/-! ## The pgid invariant under every command -/

theorem pgids_set_state (l : List job) (st : job_state) :
    ∀ (ref : Nat) (j : job), l[ref]? = some j →
      pgids (l.set ref { j with state := st }) = pgids l := by
  induction l with
  | nil => intro ref j h; simp
  | cons x l ih =>
    intro ref j h
    cases ref with
    | zero =>
      simp at h
      subst h
      simp [pgids]
    | succ ref =>
      simp at h
      have := ih ref j h
      simp only [pgids] at this
      simp [pgids, this]

theorem zjobs_scan_list (entries : List ProcStat) :
    ∀ s : Shell, (zjobs_scan s entries).my_job_list = s.my_job_list := by
  induction entries with
  | nil => intro s; rfl
  | cons e rest ih =>
    intro s
    unfold zjobs_scan
    split_ifs
    · rw [ih]; rfl
    · rw [ih]

theorem builtin_fg_nodup (s : Shell) (c : Command) (env : Env)
    (hnd : (pgids s.my_job_list).Nodup) :
    (pgids (builtin_fg s c env).1.my_job_list).Nodup := by
  cases hget : get_item_bypos s.my_job_list (position_arg c.args) with
  | none =>
    unfold builtin_fg
    simp only []
    have e : (Shell.access (block_SIGCHLD s) (.get_item_bypos (position_arg c.args))).my_job_list
        = s.my_job_list := rfl
    simp only [e, hget]
    exact hnd
  | some p =>
    obtain ⟨ref, J⟩ := p
    have hJ := get_item_bypos_some _ _ _ _ hget
    have hl : (fg_resume (fg_lookup s c) (position_arg c.args) ref J env).my_job_list
        = s.my_job_list.eraseIdx ref := by
      rw [fg_resume_list]
      rfl
    have hsub : (pgids (s.my_job_list.eraseIdx ref)).Nodup :=
      hnd.sublist ((List.eraseIdx_sublist _ _).map _)
    rw [builtin_fg_found s c env ref J hget]
    by_cases hw : env.waitpid = -1
    · rw [fg_wait_list_other _ _ _ _ (Or.inl hw), hl]
      exact hsub
    · cases hst : env.wait_status with
      | stopped sig =>
        rw [fg_wait_list_stopped _ _ _ _ sig hw hst, hl]
        exact nodup_add _ _ hsub (pgid_not_in_erased _ _ J hJ hnd)
      | continued a =>
        rw [fg_wait_list_other _ _ _ _ (Or.inr (by rw [hst]; intro sig h; cases h)), hl]
        exact hsub
      | exited a =>
        rw [fg_wait_list_other _ _ _ _ (Or.inr (by rw [hst]; intro sig h; cases h)), hl]
        exact hsub
      | signaled a =>
        rw [fg_wait_list_other _ _ _ _ (Or.inr (by rw [hst]; intro sig h; cases h)), hl]
        exact hsub

theorem builtin_bg_pgids (s : Shell) (c : Command) (env : Env) :
    pgids (builtin_bg s c env).1.my_job_list = pgids s.my_job_list := by
  unfold builtin_bg
  simp only []
  have e : (Shell.access (block_SIGCHLD s) (.get_item_bypos (position_arg c.args))).my_job_list
      = s.my_job_list := rfl
  cases hget : get_item_bypos s.my_job_list (position_arg c.args) with
  | none =>
    simp only [e, hget]
    rfl
  | some p =>
    obtain ⟨ref, J⟩ := p
    have hJ := get_item_bypos_some _ _ _ _ hget
    simp only [e, hget]
    split_ifs <;>
      simpa [unblock_SIGCHLD, Shell.perror, Shell.emit, Shell.set_state, Shell.access,
        block_SIGCHLD] using pgids_set_state s.my_job_list .BACKGROUND ref J hJ

theorem builtin_deljob_sublist (s : Shell) :
    List.Sublist (builtin_deljob s).1.my_job_list s.my_job_list := by
  unfold builtin_deljob
  simp only []
  have e : (Shell.access (block_SIGCHLD s) (.get_item_bypos 1)).my_job_list
      = s.my_job_list := rfl
  cases hget : get_item_bypos s.my_job_list 1 with
  | none =>
    simp only [e, hget]
    exact List.Sublist.refl _
  | some p =>
    obtain ⟨ref, J⟩ := p
    simp only [e, hget]
    split_ifs
    · exact List.Sublist.refl _
    · exact List.eraseIdx_sublist _ _
    · exact List.Sublist.refl _

theorem builtin_exit_list (s : Shell) : (builtin_exit s).1.my_job_list = s.my_job_list := rfl

theorem builtin_cd_list (s : Shell) (c : Command) (env : Env) :
    (builtin_cd s c env).1.my_job_list = s.my_job_list := by
  unfold builtin_cd
  simp only []
  split_ifs <;> rfl

theorem builtin_jobs_list (s : Shell) : (builtin_jobs s).1.my_job_list = s.my_job_list := by
  unfold builtin_jobs
  simp only []
  split_ifs <;> rfl

theorem builtin_currjob_list (s : Shell) :
    (builtin_currjob s).1.my_job_list = s.my_job_list := by
  unfold builtin_currjob
  simp only []
  have e : (Shell.access (block_SIGCHLD s) (.get_item_bypos 1)).my_job_list
      = s.my_job_list := rfl
  cases hget : get_item_bypos s.my_job_list 1 with
  | none => simp only [e, hget]; rfl
  | some p => simp only [e, hget]; rfl

theorem builtin_zjobs_list (s : Shell) (env : Env) :
    (builtin_zjobs s env).1.my_job_list = s.my_job_list := by
  unfold builtin_zjobs
  split
  · rw [zjobs_scan_list]; rfl
  · rfl

theorem dispatch_some (s : Shell) (c : Command) (env : Env) (name : String)
    (hname : c.args.head? = some name) :
    dispatch s c env
      = if name = "exit" then builtin_exit s
        else if name = "cd" then builtin_cd s c env
        else if name = "jobs" then builtin_jobs s
        else if name = "fg" then builtin_fg s c env
        else if name = "bg" then builtin_bg s c env
        else if name = "currjob" then builtin_currjob s
        else if name = "deljob" then builtin_deljob s
        else if name = "zjobs" then builtin_zjobs s env
        else if name = "bgteam" then builtin_bgteam s c env
        else if name = "fico" then builtin_fico s c env
        else if name = "mask" then builtin_mask s c env
        else launch s name c env := by
  unfold dispatch
  rw [hname]

/-- The pgid invariant is kept by every command of the main loop, launches
in the foreground and built-ins included, when the pids `fork` returns are
fresh. -/
theorem dispatch_nodup (s : Shell) (c : Command) (env : Env)
    (hnd : (pgids s.my_job_list).Nodup) (hf : FreshPids s c env) :
    (pgids (dispatch s c env).1.my_job_list).Nodup := by
  cases hname : c.args.head? with
  | none =>
    have : dispatch s c env = (s, .next_command) := by simp [dispatch, hname]
    rw [this]
    exact hnd
  | some name =>
    by_cases hb : name = "bgteam"
    · exact background_launch_nodup s c env hnd (Or.inl (by rw [hname, hb])) hf
    · have hcalls : fork_calls c = 1 := by simp [fork_calls, hname, hb]
      have hfresh : 0 < env.fork 0 → env.fork 0 ∉ pgids s.my_job_list := fun hp =>
        (hf 0 (by rw [hcalls]; omega) hp).1
      have key : ∀ l : List job,
          (l = s.my_job_list ∨ (0 < env.fork 0 ∧ ∃ j : job, j.pgid = env.fork 0
            ∧ l = s.my_job_list ++ [j])) → (pgids l).Nodup := by
        intro l hl
        rcases hl with h | ⟨hp, j, hj, h⟩
        · rw [h]; exact hnd
        · rw [h]
          exact nodup_add _ _ hnd (by rw [hj]; exact hfresh hp)
      rw [dispatch_some s c env name hname]
      by_cases h : name = "exit"
      · rw [if_pos h]; rw [builtin_exit_list]; exact hnd
      rw [if_neg h]
      clear h
      by_cases h : name = "cd"
      · rw [if_pos h]; rw [builtin_cd_list]; exact hnd
      rw [if_neg h]
      clear h
      by_cases h : name = "jobs"
      · rw [if_pos h]; rw [builtin_jobs_list]; exact hnd
      rw [if_neg h]
      clear h
      by_cases h : name = "fg"
      · rw [if_pos h]; exact builtin_fg_nodup s c env hnd
      rw [if_neg h]
      clear h
      by_cases h : name = "bg"
      · rw [if_pos h]; rw [builtin_bg_pgids]; exact hnd
      rw [if_neg h]
      clear h
      by_cases h : name = "currjob"
      · rw [if_pos h]; rw [builtin_currjob_list]; exact hnd
      rw [if_neg h]
      clear h
      by_cases h : name = "deljob"
      · rw [if_pos h]; exact hnd.sublist ((builtin_deljob_sublist s).map _)
      rw [if_neg h]
      clear h
      by_cases h : name = "zjobs"
      · rw [if_pos h]; rw [builtin_zjobs_list]; exact hnd
      rw [if_neg h]
      clear h
      by_cases h : name = "bgteam"
      · rw [if_pos h]; exact absurd h hb
      rw [if_neg h]
      clear h
      by_cases h : name = "fico"
      · rw [if_pos h]; exact key _ (builtin_fico_list s c env)
      rw [if_neg h]
      clear h
      by_cases h : name = "mask"
      · rw [if_pos h]; exact key _ (builtin_mask_list s c env)
      rw [if_neg h]
      clear h
      exact key _ (launch_list s name c env)

/-! ## The scanner returns on every NULL-terminated buffer -/

theorem cell_at (A : Args) (x : Option String) (rest : Args) :
    (A ++ x :: rest)[A.length]? = some x := by
  rw [List.getElem?_append_right (Nat.le_refl _)]
  simp

theorem cell_next (A : Args) (x y : Option String) (rest : Args) :
    (A ++ x :: y :: rest)[A.length + 1]? = some y := by
  rw [List.getElem?_append_right (by omega)]
  simp

theorem parse_loop_total (n : Nat) :
    ∀ (v : List String) (fuel : Nat) (A rest : Args) (fo : Option String) (err : List String),
      v.length ≤ n → v.length < fuel →
      ∃ p, parse_loop fuel (A ++ (v.map some ++ none :: rest)) A.length fo err = some p := by
  induction n with
  | zero =>
    intro v fuel A rest fo err hn hf
    have hv : v = [] := List.eq_nil_of_length_eq_zero (by omega)
    subst hv
    obtain ⟨f, rfl⟩ : ∃ f, fuel = f + 1 := ⟨fuel - 1, by simp at hf; omega⟩
    exact ⟨_, parse_loop_end f _ _ fo err (cell_at A none rest)⟩
  | succ n ih =>
    intro v fuel A rest fo err hn hf
    obtain ⟨f, rfl⟩ : ∃ f, fuel = f + 1 := ⟨fuel - 1, by omega⟩
    cases v with
    | nil => exact ⟨_, parse_loop_end f _ _ fo err (cell_at A none rest)⟩
    | cons t v =>
      have h0 : (A ++ ((t :: v).map some ++ none :: rest))[A.length]? = some (some t) := by
        rw [List.getElem?_append_right (by omega)]
        simp
      simp only [List.length_cons] at hn hf
      by_cases ht : t = ">>"
      · subst ht
        cases v with
        | nil =>
          have h1 : (A ++ (([">>"] : List String).map some ++ none :: rest))[A.length + 1]?
              = some none := cell_next A (some ">>") none rest
          obtain ⟨g, rfl⟩ : ∃ g, f = g + 1 := ⟨f - 1, by simp at hf; omega⟩
          refine ⟨⟨(A ++ (([">>"] : List String).map some ++ none :: rest)).set 0 none, fo,
            err ++ ["syntax error in redirection\n"]⟩, ?_⟩
          rw [parse_loop]
          simp only [h0, h1, if_true]
          apply parse_loop_end
          rw [List.getElem?_set_ne (by omega)]
          exact h1
        | cons g v =>
          have h1 : (A ++ ((">>" :: g :: v).map some ++ none :: rest))[A.length + 1]?
              = some (some g) := cell_next A (some ">>") (some g) _
          obtain ⟨y, hy⟩ := shift_left_spec v
            (A ++ ((">>" :: g :: v).map some ++ none :: rest)).length A (some ">>") (some g) rest
            (by simp; omega)
          simp only [List.length_cons] at hn hf
          obtain ⟨p, hp⟩ := ih v f A (y :: none :: rest) (some g) err (by omega) (by omega)
          refine ⟨p, ?_⟩
          rw [parse_loop]
          simp only [h0, h1, if_true]
          have e : A ++ ((">>" :: g :: v).map some ++ none :: rest)
              = A ++ some ">>" :: some g :: (v.map some ++ none :: rest) := by simp
          rw [e] at hy ⊢
          rw [hy]
          exact hp
      · obtain ⟨p, hp⟩ := ih v f (A ++ [some t]) rest fo err (by omega) (by omega)
        refine ⟨p, ?_⟩
        rw [parse_loop]
        simp only [h0, ht, if_false]
        have e : A ++ ((t :: v).map some ++ none :: rest)
            = (A ++ [some t]) ++ (v.map some ++ none :: rest) := by simp
        have hl : A.length + 1 = (A ++ [some t]).length := by simp
        rw [e, hl]
        exact hp

/-- On a buffer that holds a NULL-terminated vector the scan of
`parse_append_redirection` returns, and so does the turn of the main loop. -/
theorem main_iteration_returns (s : Shell) (v : List String) (rest : Args)
    (background : Bool) (file_in file_out : Option String) (env : Env) :
    (∃ p, parse_append_redirection (v.map some ++ none :: rest) = some p)
      ∧ ∃ r, main_iteration s (v.map some ++ none :: rest) background file_in file_out env
          = some r := by
  have h : ∃ p, parse_append_redirection (v.map some ++ none :: rest) = some p := by
    unfold parse_append_redirection
    have := parse_loop_total v.length v ((v.map some ++ none :: rest).length + 1) [] rest
      none [] (Nat.le_refl _) (by simp; omega)
    simpa using this
  refine ⟨h, ?_⟩
  obtain ⟨p, hp⟩ := h
  unfold main_iteration
  rw [hp]
  exact ⟨_, rfl⟩

/-! ## The built-in `mask` on a malformed line -/

theorem mask_scan_bad (sigs : List String) :
    ∀ (s : Shell) (acc : List Int) (e : Bool) (tail : List String),
      "-c" ∉ sigs → acc.length + sigs.length ≤ 100 → (tail = [] ∨ ∃ t, tail = "-c" :: t) →
      mask_scan (sigs ++ tail) s acc e
        = some ({ s with
                  trace := s.trace ++ List.replicate (bad_signals sigs) mask_error_line },
            acc ++ sigs.map atoi, (e || decide (0 < bad_signals sigs)), tail) := by
  induction sigs with
  | nil =>
    intro s acc e tail _ _ ht
    rcases ht with rfl | ⟨t, rfl⟩ <;> simp [mask_scan, bad_signals]
  | cons a sigs ih =>
    intro s acc e tail hc hlen ht
    have ha : a ≠ "-c" := fun h => hc (by simp [h])
    have hs : "-c" ∉ sigs := fun h => hc (by simp [h])
    have hcap : ¬ 100 ≤ acc.length := by
      simp only [List.length_cons] at hlen
      omega
    have hlen2 : (acc ++ [atoi a]).length + sigs.length ≤ 100 := by
      simp only [List.length_append, List.length_cons, List.length_nil] at hlen ⊢
      omega
    by_cases hb : atoi a ≤ 0
    · have hbad : bad_signals (a :: sigs) = bad_signals sigs + 1 := by
        simp [bad_signals, List.filter_cons, hb]
      rw [List.cons_append, mask_scan, if_neg ha, if_neg hcap, if_pos hb,
        ih _ _ _ _ hs hlen2 ht, hbad]
      simp [Shell.printf, Shell.emit, mask_error_line, List.replicate_succ]
    · have hbad : bad_signals (a :: sigs) = bad_signals sigs := by
        simp [bad_signals, List.filter_cons, hb]
      rw [List.cons_append, mask_scan, if_neg ha, if_neg hcap, if_neg hb,
        ih _ _ _ _ hs hlen2 ht, hbad]
      simp

theorem builtin_mask_malformed (s : Shell) (c : Command) (env : Env) (sigs tail : List String)
    (hargs : c.args = "mask" :: (sigs ++ tail)) (hc : "-c" ∉ sigs)
    (hlen : sigs.length ≤ 100) (ht : tail = [] ∨ tail = ["-c"]) :
    builtin_mask s c env
      = ({ s with trace := s.trace ++
            List.replicate (max 1 (bad_signals sigs)) mask_error_line }, .next_command) := by
  have hscan := mask_scan_bad sigs s [] false tail hc (by simpa using hlen)
    (by rcases ht with h | h
        · exact Or.inl h
        · exact Or.inr ⟨[], h⟩)
  unfold builtin_mask
  rw [hargs]
  simp only [List.drop_succ_cons, List.drop_zero]
  rw [hscan]
  simp only [Bool.false_or]
  by_cases hb : 0 < bad_signals sigs
  · have hm : max 1 (bad_signals sigs) = bad_signals sigs := by omega
    simp [hb, hm]
  · have h0 : bad_signals sigs = 0 := by omega
    rcases ht with rfl | rfl <;>
      simp [h0, Shell.printf, Shell.emit, mask_error_line]

/-- C12. `mask` on a malformed line: when the literal `-c` is absent from the
vector, or the first `-c` is its last token (the bare `mask -c` included),
and the signal tokens, at most 100, fit the array `signals`, `mask` prints
its syntax-error line (once, or once for every signal token that `atoi` does
not turn into a positive `int` when there is one) and goes on to the next
command; it does nothing else: no `fork`, and the job list, the terminal and
the `SIGCHLD` mask are as before. -/
theorem mask_syntax_error (s : Shell) (c : Command) (env : Env) (sigs : List String)
    (hc : "-c" ∉ sigs) (hlen : sigs.length ≤ 100)
    (hargs : c.args = "mask" :: sigs ∨ c.args = "mask" :: (sigs ++ ["-c"])) :
    dispatch s c env
        = ({ s with trace := s.trace ++
              List.replicate (max 1 (bad_signals sigs)) mask_error_line }, .next_command)
      ∧ 0 < max 1 (bad_signals sigs)
      ∧ (∀ r, Event.fork r ∉ List.replicate (max 1 (bad_signals sigs)) mask_error_line)
      ∧ (dispatch s c env).1.my_job_list = s.my_job_list
      ∧ (dispatch s c env).1.terminal = s.terminal := by
  have hd : dispatch s c env
      = ({ s with trace := s.trace ++
            List.replicate (max 1 (bad_signals sigs)) mask_error_line }, .next_command) := by
    rcases hargs with h | h
    · rw [dispatch_mask s c env (by rw [h]; rfl)]
      exact builtin_mask_malformed s c env sigs [] (by simpa using h) hc hlen (Or.inl rfl)
    · rw [dispatch_mask s c env (by rw [h]; rfl)]
      exact builtin_mask_malformed s c env sigs ["-c"] h hc hlen (Or.inr rfl)
  refine ⟨hd, by omega, ?_, by rw [hd], by rw [hd]⟩
  intro r hr
  have := List.eq_of_mem_replicate hr
  simp [mask_error_line] at this

/-- Witness of C12: `mask 4294967296 0`, with no `-c`; both tokens are 0 as
`int`, so the line is printed twice. -/
theorem mask_syntax_error_witness :
    ("-c" ∉ ["4294967296", "0"] ∧ ["4294967296", "0"].length ≤ 100
      ∧ (["mask", "4294967296", "0"] = "mask" :: ["4294967296", "0"]
          ∨ ["mask", "4294967296", "0"] = "mask" :: (["4294967296", "0"] ++ ["-c"])))
    ∧ dispatch (Shell.init 1) ⟨["mask", "4294967296", "0"], false, none, none, none⟩
          Env.sample
        = (⟨1, [], false, 1, [mask_error_line, mask_error_line]⟩, .next_command) :=
  ⟨⟨by decide, by decide, Or.inl rfl⟩,
    (mask_syntax_error (Shell.init 1) ⟨["mask", "4294967296", "0"], false, none, none, none⟩
      Env.sample ["4294967296", "0"] (by decide) (by decide) (Or.inl rfl)).1.trans rfl⟩

/-! ## The built-in `bgteam` on a malformed line -/

theorem bgteam_missing_arguments (s : Shell) (c : Command) (env : Env)
    (hname : c.args.head? = some "bgteam") (hmiss : c.args[1]? = none ∨ c.args[2]? = none) :
    dispatch s c env
      = ({ s with trace := s.trace ++
            [.printf "The bgteam command requires two arguments" []] }, .next_command) := by
  rw [dispatch_bgteam s c env hname]
  unfold builtin_bgteam
  rcases hmiss with h | h
  · rw [h]
    rfl
  · rw [h]
    cases c.args[1]? <;> rfl

theorem bgteam_nonpositive_count (s : Shell) (c : Command) (env : Env) (count cmd : String)
    (hname : c.args.head? = some "bgteam") (h1 : c.args[1]? = some count)
    (h2 : c.args[2]? = some cmd) (hcount : atoi count ≤ 0) :
    dispatch s c env = (s, .next_command) := by
  rw [dispatch_bgteam s c env hname]
  unfold builtin_bgteam
  rw [h1, h2]
  simp only []
  rw [if_neg (by omega)]

/-- C11, evaluated where it fails. From the initial shell, `bgteam 0 sleep 5`,
`bgteam -2 sleep` and `bgteam abc sleep` leave the shell exactly as it was:
no process is created and the job list is unchanged, but nothing is printed
either. With a missing argument (`bgteam 3`, `bgteam`) the message is
printed. -/
theorem bgteam_nonpositive_count_silent :
    dispatch (Shell.init 1) ⟨["bgteam", "0", "sleep", "5"], false, none, none, none⟩ Env.sample
      = (Shell.init 1, .next_command)
    ∧ dispatch (Shell.init 1) ⟨["bgteam", "-2", "sleep"], false, none, none, none⟩ Env.sample
      = (Shell.init 1, .next_command)
    ∧ dispatch (Shell.init 1) ⟨["bgteam", "abc", "sleep"], false, none, none, none⟩ Env.sample
      = (Shell.init 1, .next_command)
    ∧ dispatch (Shell.init 1) ⟨["bgteam", "3"], false, none, none, none⟩ Env.sample
      = (⟨1, [], false, 1, [.printf "The bgteam command requires two arguments" []]⟩,
          .next_command)
    ∧ dispatch (Shell.init 1) ⟨["bgteam"], false, none, none, none⟩ Env.sample
      = (⟨1, [], false, 1, [.printf "The bgteam command requires two arguments" []]⟩,
          .next_command) := by
  refine ⟨?_, ?_, ?_, ?_, ?_⟩ <;> rfl

/-! ## The child branch of the generic launch when a redirection fails -/

theorem redirect_in_flag (s s2 : Shell) (file_in : Option String) (env : Env) :
    (redirect_in s file_in env).2 = (redirect_in s2 file_in env).2 := by
  unfold redirect_in
  cases file_in with
  | none => rfl
  | some f =>
    simp only []
    split_ifs <;> rfl

theorem redirect_out_flag (s s2 : Shell) (file_out : Option String) (flags : OpenFlags)
    (env : Env) :
    (redirect_out s file_out flags env).2 = (redirect_out s2 file_out flags env).2 := by
  unfold redirect_out
  cases file_out with
  | none => rfl
  | some f =>
    simp only []
    split_ifs <;> rfl

theorem child_redirections_flag (s s2 : Shell) (c : Command) (env : Env) :
    (child_redirections s c env).2 = (child_redirections s2 c env).2 := by
  unfold child_redirections
  simp only []
  have h1 := redirect_in_flag s s2 c.file_in env
  have h2 := redirect_out_flag (redirect_in s c.file_in env).1 (redirect_in s2 c.file_in env).1
    c.file_out .creat_trunc env
  have h3 := redirect_out_flag
    (redirect_out (redirect_in s c.file_in env).1 c.file_out .creat_trunc env).1
    (redirect_out (redirect_in s2 c.file_in env).1 c.file_out .creat_trunc env).1
    c.file_out_append .creat_append env
  rw [h1, h2, h3]
  split_ifs <;> rfl

/-- Whatever the state of the shell, the child branch of the generic launch
goes back to the head of the main loop when one of its redirections fails,
and otherwise ends in `execvp` or `exit(EXIT_FAILURE)`. -/
theorem launch_child_control (s s2 : Shell) (name : String) (c : Command) (env : Env) :
    (launch_child s name c env).2
      = if (child_redirections s2 c env).2 = false then .next_command
        else if env.execvp_ok then .replaced (some name) c.args
        else .exited 1 := by
  unfold launch_child
  simp only []
  rw [child_redirections_flag _ s2]
  by_cases h : (child_redirections s2 c env).2 = false
  · rw [if_pos h, if_pos h]
  · rw [if_neg h, if_neg h]
    unfold exec_or_fail
    simp only []
    split_ifs <;> rfl
theorem redirect_in_fails (s : Shell) (f : String) (env : Env)
    (h : env.open_file f .rdonly = -1 ∨ env.dup2 (env.open_file f .rdonly) 0 = -1) :
    (redirect_in s (some f) env).2.1 = false := by
  unfold redirect_in
  simp only []
  by_cases h1 : env.open_file f .rdonly = -1
  · rw [if_pos h1]
  · rw [if_neg h1]
    rcases h with h | h
    · exact absurd h h1
    · rw [if_pos h]

theorem redirect_out_fails (s : Shell) (f : String) (flags : OpenFlags) (env : Env)
    (h : env.dup2 (env.open_file f flags) 1 = -1) :
    (redirect_out s (some f) flags env).2.1 = false := by
  unfold redirect_out
  simp only []
  rw [if_neg (by decide), if_pos h]

theorem child_redirections_fails (s : Shell) (c : Command) (env : Env)
    (h : RedirectionFails c env) : (child_redirections s c env).2 = false := by
  unfold child_redirections
  simp only []
  rcases h with ⟨f, hf, h⟩ | ⟨f, hf, h⟩ | ⟨f, hf, h⟩
  · rw [if_pos (Or.inl (by rw [hf]; rfl)), hf, if_pos (redirect_in_fails s f env h)]
  · rw [if_pos (Or.inr (Or.inl (by rw [hf]; rfl)))]
    by_cases h1 : (redirect_in s c.file_in env).2.1 = false
    · rw [if_pos h1]
    · rw [if_neg h1, hf, if_pos (redirect_out_fails _ f .creat_trunc env h)]
  · rw [if_pos (Or.inr (Or.inr (by rw [hf]; rfl)))]
    by_cases h1 : (redirect_in s c.file_in env).2.1 = false
    · rw [if_pos h1]
    · rw [if_neg h1]
      by_cases h2 : (redirect_out (redirect_in s c.file_in env).1 c.file_out
          .creat_trunc env).2.1 = false
      · rw [if_pos h2]
      · rw [if_neg h2, hf, if_pos (redirect_out_fails _ f .creat_append env h)]

/-- In the child branch of the generic launch a failing redirection leads
back to the head of the main loop: the process neither calls `execvp` nor
terminates. -/
theorem launch_child_redirection_fails (s : Shell) (name : String) (c : Command) (env : Env)
    (h : RedirectionFails c env) :
    (launch_child s name c env).2 = .next_command := by
  rw [launch_child_control s s name c env, if_pos (child_redirections_fails s c env h)]
/-- C13, evaluated where it fails. In the child (`fork` returns 0, pid 100)
of the foreground commands `cat < missing.txt` and `ls > /nodir/out`, whose
`open` returns -1, and of `ls >> out.txt`, whose `dup2` returns -1, the
branch prints its diagnostic and leaves through `continue`: the child is
back at the head of the main loop, having neither called `execvp` nor
`exit`. The sibling failure of `execvp` (`nosuchcmd`) does end in
`exit(EXIT_FAILURE)`. -/
theorem redirection_failure_continues :
    dispatch (Shell.init 1) ⟨["cat"], false, some "missing.txt", none, none⟩ Env.failing_open
      = (⟨100, [], false, 100,
          [.fork 0, .set_terminal 100, .restore_terminal_signals,
           .open_file "missing.txt" (-1), .perror "Error when opening input file"]⟩,
          .next_command)
    ∧ dispatch (Shell.init 1) ⟨["ls"], false, none, some "/nodir/out", none⟩ Env.failing_open
      = (⟨100, [], false, 100,
          [.fork 0, .set_terminal 100, .restore_terminal_signals,
           .open_file "/nodir/out" (-1), .dup2 (-1) 1 (-1),
           .perror "Error redirecioning output", .close (-1)]⟩,
          .next_command)
    ∧ dispatch (Shell.init 1) ⟨["ls"], false, none, none, some "out.txt"⟩ Env.failing_dup2
      = (⟨100, [], false, 100,
          [.fork 0, .set_terminal 100, .restore_terminal_signals,
           .open_file "out.txt" 3, .dup2 3 1 (-1),
           .perror "Error redirecioning output", .close 3]⟩,
          .next_command)
    ∧ dispatch (Shell.init 1) ⟨["nosuchcmd"], false, none, none, none⟩
        { Env.failing_open with execvp_ok := false }
      = (⟨100, [], false, 100,
          [.fork 0, .set_terminal 100, .restore_terminal_signals,
           .execvp (some "nosuchcmd") ["nosuchcmd"],
           .printf "Error, command not found: %s\n" [.str "nosuchcmd"], .exit 1]⟩,
          .exited 1) := by
  refine ⟨?_, ?_, ?_, ?_⟩ <;> rfl

/-! ## The 32-bit `int` results of `atoi` and the capacity of `signals` -/

/-- The count of `bgteam` is an `int`: `bgteam 4294967297 sleep 5` runs the
loop once. -/
theorem bgteam_count_is_int :
    atoi "4294967297" = 1
    ∧ (dispatch (Shell.init 1) ⟨["bgteam", "4294967297", "sleep", "5"], false, none, none, none⟩
        Env.sample).1.my_job_list = [⟨100, "sleep", .BACKGROUND⟩] := by
  refine ⟨?_, ?_⟩ <;> rfl

/-- The position of `fg` is an `int`: `fg 4294967297` takes the job at
position 1. -/
theorem fg_position_is_int :
    get_item_bypos [⟨100, "sleep", .STOPPED⟩] (position_arg ["fg", "4294967297"])
      = some (0, ⟨100, "sleep", .STOPPED⟩) := by
  rfl

/-- A `mask` line with 101 signal tokens stores past the end of
`signals[100]`: the model gives no defined behaviour for it, with or without
`-c`. -/
theorem mask_overflow_undefined :
    (dispatch (Shell.init 1) ⟨"mask" :: List.replicate 101 "1", false, none, none, none⟩
        Env.sample).2 = .undefined
    ∧ (dispatch (Shell.init 1)
        ⟨"mask" :: (List.replicate 101 "1" ++ ["-c", "ls"]), false, none, none, none⟩
        Env.sample).2 = .undefined
    ∧ (dispatch (Shell.init 1)
        ⟨"mask" :: (List.replicate 100 "1" ++ ["-c", "ls"]), true, none, none, none⟩
        Env.sample).2 = .next_command := by
  refine ⟨?_, ?_, ?_⟩ <;> rfl

end UnixShell
